import Mathlib

/-!
A shallow embedding of the encryption session manager of `matrix/encryption.py`
(weechat-matrix): the `Olm` manager class, its pairwise decrypt dispatch,
group-session decryption, persistence layer and the key-fingerprint
formatting helpers, together with proofs about this embedding.

The cryptographic primitive provider (python-olm) is modelled symbolically:
an account holds a pool of one-time keys, a pairwise session holds the key of
its channel and a ratchet counter, and a group session holds the shared key
and a ratchet counter.  A message carries the key it was encrypted under, so
"this session can decrypt this message" becomes a key comparison; a session's
id is derived from its key material, as in olm.  Pickles are modelled as the
session state itself tagged good, or a corrupt blob that the provider rejects
(`from_pickle` fails), mirroring serialize/deserialize of opaque blobs.
The python `defaultdict` registries and their mutation-on-lookup behaviour
are modelled explicitly (`ddEnsure`, `ddAppend`, `ddSet`, `dd2Set`), and the
sqlite tables are lists of rows in insertion order, with `insert` appending
and `update ... where` mapping over matching rows, as sqlite does.
-/

namespace WeechatMatrix

/-- Errors raised by the cryptographic provider: `OlmAccountError`,
`OlmSessionError` and `OlmGroupSessionError` are distinct exception types in
python-olm (none is a subclass of another). -/
inductive OlmErr where
  | olmAccountError
  | olmSessionError
  | olmGroupSessionError
deriving DecidableEq, Repr

/-- The olm `Account`: long-term identity keys, a pool of consumable
one-time keys, and the published mark. -/
structure Account where
  curve25519 : String
  ed25519 : String
  oneTimeKeys : List String
  published : Bool
deriving DecidableEq, Repr

/-- A pairwise olm `Session`: the key of its ratchet channel and a ratchet
counter advanced on every successful decrypt. -/
structure PSession where
  skey : String
  ratchet : Nat
deriving DecidableEq, Repr

/-- `session.id()`: derived from the session's key material. -/
def PSession.sid (s : PSession) : String := s.skey

/-- An `InboundGroupSession`: the shared room key and a ratchet counter. -/
structure GSession where
  gkey : String
  ratchet : Nat
deriving DecidableEq, Repr

/-- `session.id`: derived from the group session's key material. -/
def GSession.gid (s : GSession) : String := s.gkey

/-- An inbound olm message: tagged pre-key or not (`OlmPreKeyMessage`),
carrying the channel key it was encrypted under, a corrupt-payload flag for
ciphertext the provider rejects even on the right session, and the
plaintext it decrypts to. -/
structure OlmMessage where
  isPreKey : Bool
  key : String
  corrupt : Bool
  body : String
deriving DecidableEq, Repr

/-- A megolm group ciphertext: the shared key it was produced under and the
plaintext it decrypts to. -/
structure GroupCiphertext where
  key : String
  body : String
deriving DecidableEq, Repr

/-- A pickled `Account` blob: either a faithful serialization or a corrupt
blob the provider rejects on load. -/
inductive APickle where
  | good (a : Account)
  | corrupt
deriving DecidableEq, Repr

/-- A pickled `Session` blob. -/
inductive SPickle where
  | good (s : PSession)
  | corrupt
deriving DecidableEq, Repr

/-- A pickled `InboundGroupSession` blob. -/
inductive GPickle where
  | good (g : GSession)
  | corrupt
deriving DecidableEq, Repr

/-- `account.pickle()`. -/
def Account.pickle (a : Account) : APickle := .good a

/-- `session.pickle()`. -/
def PSession.pickle (s : PSession) : SPickle := .good s

/-- `session.pickle()` for group sessions. -/
def GSession.pickle (g : GSession) : GPickle := .good g

/-- `Account.from_pickle`: raises `OlmAccountError` on a corrupt blob. -/
def APickle.from_pickle : APickle → Except OlmErr Account
  | .good a => .ok a
  | .corrupt => .error .olmAccountError

/-- `Session.from_pickle`: raises `OlmSessionError` on a corrupt blob. -/
def SPickle.from_pickle : SPickle → Except OlmErr PSession
  | .good s => .ok s
  | .corrupt => .error .olmSessionError

/-- `InboundGroupSession.from_pickle`: raises `OlmGroupSessionError` on a
corrupt blob. -/
def GPickle.from_pickle : GPickle → Except OlmErr GSession
  | .good g => .ok g
  | .corrupt => .error .olmGroupSessionError

/-- `session.matches(message)`: whether a pre-key message belongs to this
session's handshake. -/
def PSession.matchesP (s : PSession) (m : OlmMessage) : Bool :=
  decide (m.key = s.skey)

/-- `session.decrypt(message)`: succeeds exactly when the message was
encrypted under this session's channel key and its payload is intact;
advances the ratchet.  Raises `OlmSessionError` otherwise. -/
def PSession.decryptP (s : PSession) (m : OlmMessage) :
    Except OlmErr (String × PSession) :=
  if m.key = s.skey ∧ m.corrupt = false then
    .ok (m.body, { s with ratchet := s.ratchet + 1 })
  else
    .error .olmSessionError

/-- `InboundSession(account, message, sender_key)`: derives a brand-new
inbound session from a pre-key message, consuming key material from the
account; raises `OlmSessionError` for a non-pre-key message or unknown
one-time key. -/
def InboundSession.create (a : Account) (m : OlmMessage) (_senderKey : String) :
    Except OlmErr PSession :=
  if m.isPreKey = true ∧ m.key ∈ a.oneTimeKeys then
    .ok { skey := m.key, ratchet := 0 }
  else
    .error .olmSessionError

/-- `account.remove_one_time_keys(session)`: consumes the one-time key the
session used from the account's pool. -/
def Account.remove_one_time_keys (a : Account) (s : PSession) : Account :=
  { a with oneTimeKeys := a.oneTimeKeys.erase s.skey }

/-- `InboundGroupSession(session_key)`. -/
def InboundGroupSession.create (session_key : String) : GSession :=
  { gkey := session_key, ratchet := 0 }

/-- `session.decrypt(ciphertext)` for group sessions: succeeds when the
ciphertext was produced under this session's shared key; advances the
ratchet.  Raises `OlmGroupSessionError` otherwise. -/
def GSession.decryptG (s : GSession) (ct : GroupCiphertext) :
    Except OlmErr (String × GSession) :=
  if ct.key = s.gkey then
    .ok (ct.body, { s with ratchet := s.ratchet + 1 })
  else
    .error .olmGroupSessionError

/-- `account.sign(message)`: symbolic signature with the long-term ed25519
signing key. -/
def Account.sign (a : Account) (message : String) : String :=
  "ed25519:" ++ a.ed25519 ++ ":" ++ message

deriving instance DecidableEq for Except

/-- First-match association lookup (python dict lookup by key). -/
def alookup {α : Type} : List (String × α) → String → Option α
  | [], _ => none
  | p :: rest, k => if p.1 = k then some p.2 else alookup rest k

/-- Lookup in a dict of lists with `[]` for a missing key (the value a
`defaultdict(list)` would create). -/
def getD {α : Type} (l : List (String × List α)) (k : String) : List α :=
  (alookup l k).getD []

/-- `d[k] = v` on a python dict: replace in place, else append at the end. -/
def ddSet {α : Type} : List (String × α) → String → α → List (String × α)
  | [], k, v => [(k, v)]
  | p :: rest, k, v => if p.1 = k then (k, v) :: rest else p :: ddSet rest k v

/-- `d[k]` on a `defaultdict`: inserts the default for a missing key
(mutation-on-lookup). -/
def ddEnsure {α : Type} : List (String × α) → String → α → List (String × α)
  | [], k, d => [(k, d)]
  | p :: rest, k, d => if p.1 = k then p :: rest else p :: ddEnsure rest k d

/-- `d[k].append(x)` on a `defaultdict(list)`. -/
def ddAppend {α : Type} : List (String × List α) → String → α → List (String × List α)
  | [], k, x => [(k, [x])]
  | p :: rest, k, x =>
    if p.1 = k then (p.1, p.2 ++ [x]) :: rest else p :: ddAppend rest k x

/-- `d[r][i] = v` on a `defaultdict(dict)`. -/
def dd2Set {α : Type} :
    List (String × List (String × α)) → String → String → α →
      List (String × List (String × α))
  | [], r, i, v => [(r, [(i, v)])]
  | p :: rest, r, i, v =>
    if p.1 = r then (p.1, ddSet p.2 i v) :: rest else p :: dd2Set rest r i v

/-- Two-level lookup `d[r][i]` without the defaultdict side effect. -/
def glookup {α : Type} (g : List (String × List (String × α))) (r i : String) :
    Option α :=
  alookup (getD g r) i

/-- The sqlite database of the manager: the three tables `olmaccount`,
`olmsessions` and `inbound_group_sessions`, rows in insertion order. -/
structure Database where
  olmaccount : List (String × APickle)
  olmsessions : List (String × String × SPickle)
  inbound_group_sessions : List (String × String × GPickle)
deriving DecidableEq, Repr

/-- `update olmsessions set pickle=? where user = ? and session_id = ?`. -/
def updSessRows (rows : List (String × String × SPickle)) (user sid : String)
    (s : PSession) : List (String × String × SPickle) :=
  rows.map (fun r =>
    if r.1 = user ∧ r.2.1 = sid then (r.1, r.2.1, SPickle.good s) else r)

/-- `update olmaccount set pickle=? where user = ?`. -/
def updAccRows (rows : List (String × APickle)) (user : String) (a : Account) :
    List (String × APickle) :=
  rows.map (fun r => if r.1 = user then (r.1, APickle.good a) else r)

/-- The in-memory state of one `Olm` manager, together with the process-wide
capability gate `matrix.globals.ENCRYPTION` that the `encrypt_enabled`
decorator reads. -/
structure OlmState where
  enabled : Bool
  user : String
  device_id : String
  account : Account
  sessions : List (String × List PSession)
  inbound_group_sessions : List (String × List (String × GSession))
  database : Database
deriving DecidableEq, Repr

/-- The session loop of `Olm.decrypt`: iterate the sender's sessions in
order; for a pre-key message skip sessions whose `matches` rejects it;
attempt decryption, swallowing `OlmSessionError` and moving on; on the first
success return the plaintext together with the list holding the mutated
session in place. -/
def trySessions : List PSession → OlmMessage → Option (String × List PSession)
  | [], _ => none
  | s :: rest, m =>
    if m.isPreKey = true ∧ s.matchesP m = false then
      (trySessions rest m).map (fun r => (r.1, s :: r.2))
    else
      match s.decryptP m with
      | .ok (pt, s1) => some (pt, s1 :: rest)
      | .error _ => (trySessions rest m).map (fun r => (r.1, s :: r.2))

/-- One attempt of the `Olm.decrypt` loop on a single session: `none` means
the session was skipped (pre-key message it does not match) or its
decryption error was swallowed. -/
def attemptOne (s : PSession) (m : OlmMessage) : Option (String × PSession) :=
  if m.isPreKey = true ∧ s.matchesP m = false then
    none
  else
    match s.decryptP m with
    | .ok r => some r
    | .error _ => none

namespace Olm

/-- `Olm._store_session`: insert one row into `olmsessions`. -/
def _store_session (st : OlmState) (user : String) (s : PSession) : OlmState :=
  { st with database.olmsessions :=
      st.database.olmsessions ++ [(user, s.sid, s.pickle)] }

/-- `Olm._store_inbound_group_session`: insert one row into
`inbound_group_sessions`, keyed by the session's derived id. -/
def _store_inbound_group_session (st : OlmState) (room : String) (s : GSession) :
    OlmState :=
  { st with database.inbound_group_sessions :=
      st.database.inbound_group_sessions ++ [(room, s.gid, s.pickle)] }

/-- `Olm._update_acc_in_db`. -/
def _update_acc_in_db (st : OlmState) : OlmState :=
  { st with database.olmaccount :=
      updAccRows st.database.olmaccount st.user st.account }

/-- `Olm._update_sessions_in_db`: for every registry session, update its row
by `(user, session_id)`. -/
def _update_sessions_in_db (st : OlmState) : OlmState :=
  { st with database.olmsessions :=
      (st.sessions.foldl
        (fun rows p => p.2.foldl (fun rows s => updSessRows rows p.1 s.sid s) rows)
        st.database.olmsessions) }

/-- `Olm._create_session`: derive a new inbound session from the account and
the message, append it to the sender's session list, insert its row, consume
the one-time key and update the account row. -/
def _create_session (st : OlmState) (sender senderKey : String) (m : OlmMessage) :
    Except OlmErr (PSession × OlmState) :=
  match InboundSession.create st.account m senderKey with
  | .error e => .error e
  | .ok session =>
    let st1 := { st with sessions := ddAppend st.sessions sender session }
    let st2 := _store_session st1 sender session
    let st3 := { st2 with account := st2.account.remove_one_time_keys session }
    let st4 := _update_acc_in_db st3
    .ok (session, st4)

/-- `Olm.decrypt` (gated by `encrypt_enabled`): try the sender's sessions in
creation order; on total failure derive a new inbound session from the
message and retry exactly once. -/
def decrypt (st : OlmState) (sender senderKey : String) (m : OlmMessage) :
    Option String × OlmState :=
  if st.enabled = true then
    let st1 : OlmState := { st with sessions := ddEnsure st.sessions sender [] }
    match trySessions (getD st1.sessions sender) m with
    | some (pt, l) => (some pt, { st1 with sessions := ddSet st1.sessions sender l })
    | none =>
      match _create_session st1 sender senderKey m with
      | .error _ => (none, st1)
      | .ok (session, st2) =>
        match session.decryptP m with
        | .ok (pt, s1) =>
          (some pt, { st2 with sessions :=
            (ddSet st2.sessions sender ((getD st2.sessions sender).dropLast ++ [s1])) })
        | .error _ => (none, st2)
  else (none, st)

/-- `Olm.group_decrypt` (gated by `encrypt_enabled`): direct lookup by
`(room_id, session_id)`; the `defaultdict` lookup inserts an empty dict for
an unseen room. -/
def group_decrypt (st : OlmState) (room sid : String) (ct : GroupCiphertext) :
    Option String × OlmState :=
  if st.enabled = true then
    let st1 : OlmState :=
      { st with inbound_group_sessions := ddEnsure st.inbound_group_sessions room [] }
    match glookup st1.inbound_group_sessions room sid with
    | none => (none, st1)
    | some session =>
      match session.decryptG ct with
      | .error _ => (none, st1)
      | .ok (pt, s1) =>
        (some pt, { st1 with inbound_group_sessions :=
          (dd2Set st1.inbound_group_sessions room sid s1) })
  else (none, st)

/-- `Olm.create_group_session` (NOT gated in the source): construct the
group session from the shared key, register it under `(room_id, session_id)`
and insert its row (keyed in the store by the derived id). -/
def create_group_session (st : OlmState) (room sid session_key : String) :
    OlmState :=
  let session := InboundGroupSession.create session_key
  let st1 := { st with inbound_group_sessions :=
    (dd2Set st.inbound_group_sessions room sid session) }
  _store_inbound_group_session st1 room session

/-- `Olm.mark_keys_as_published` (gated by `encrypt_enabled`). -/
def mark_keys_as_published (st : OlmState) : OlmState :=
  if st.enabled = true then
    { st with account := { st.account with published := true } }
  else st

/-- `Olm.to_session_dir` (gated by `encrypt_enabled`): update the account
row and every pairwise-session row; the group-session table is NOT
rewritten. -/
def to_session_dir (st : OlmState) : OlmState :=
  if st.enabled = true then _update_sessions_in_db (_update_acc_in_db st) else st

end Olm

/-- `select pickle from olmaccount where user = ?` followed by `fetchone`:
the first matching row, if any. -/
def firstAcc : List (String × APickle) → String → Option APickle
  | [], _ => none
  | r :: rest, u => if r.1 = u then some r.2 else firstAcc rest u

/-- The pairwise-session loading loop of `Olm.from_session_dir`: unpickle
every row of `olmsessions` in order, appending to `sessions[user]`; the
first provider rejection aborts the load. -/
def loadSessionsAux :
    List (String × String × SPickle) → List (String × List PSession) →
      Except OlmErr (List (String × List PSession))
  | [], acc => .ok acc
  | (u, _, p) :: rest, acc =>
    match p.from_pickle with
    | .error e => .error e
    | .ok s => loadSessionsAux rest (ddAppend acc u s)

/-- The group-session loading loop of `Olm.from_session_dir`: unpickle every
row of `inbound_group_sessions` in order, keying the registry by the
session's recomputed id. -/
def loadGroupAux :
    List (String × String × GPickle) → List (String × List (String × GSession)) →
      Except OlmErr (List (String × List (String × GSession)))
  | [], acc => .ok acc
  | (r, _, p) :: rest, acc =>
    match p.from_pickle with
    | .error e => .error e
    | .ok g => loadGroupAux rest (dd2Set acc r g.gid g)

/-- Errors `Olm.from_session_dir` can surface: the repository's
`EncryptionError` wrapping (only `OlmAccountError` and `OlmSessionError` are
caught), an escaping raw `OlmGroupSessionError`, and python's `TypeError`
from `row[0]` when the account row is missing. -/
inductive LoadErr where
  | encryptionError
  | olmGroupSessionError
  | typeError
deriving DecidableEq, Repr

/-- The body of `Olm.from_session_dir`'s `try` block: unpickle the account,
then every pairwise-session row, then every group-session row. -/
def loadCore (db : Database) (ap : APickle) :
    Except OlmErr
      (Account × List (String × List PSession) ×
        List (String × List (String × GSession))) := do
  let account ← ap.from_pickle
  let sessions ← loadSessionsAux db.olmsessions []
  let gsessions ← loadGroupAux db.inbound_group_sessions []
  pure (account, sessions, gsessions)

namespace Olm

/-- `Olm.from_session_dir` (gated by `encrypt_enabled`): read all three
tables, rebuild the registries, and wrap `OlmAccountError`/`OlmSessionError`
into `EncryptionError`; `none` is the decorator's result when the gate is
off. -/
def from_session_dir (enabled : Bool) (user device_id : String) (db : Database) :
    Option (Except LoadErr OlmState) :=
  if enabled = true then
    some
      (match firstAcc db.olmaccount user with
       | none => .error .typeError
       | some ap =>
         match loadCore db ap with
         | .error .olmGroupSessionError => .error .olmGroupSessionError
         | .error _ => .error .encryptionError
         | .ok (account, sessions, gsessions) =>
           .ok { enabled := enabled, user := user, device_id := device_id,
                 account := account, sessions := sessions,
                 inbound_group_sessions := gsessions, database := db })
  else none

end Olm

/-- Insertion of one payload pair into a key-sorted list, for the
`sort_keys=True` canonical serialization of `Olm.sign_json`. -/
def insertSorted (p : String × String) :
    List (String × String) → List (String × String)
  | [] => [p]
  | q :: rest => if p.1 ≤ q.1 then p :: q :: rest else q :: insertSorted p rest

/-- Key-sorting of a payload, for `json.dumps(..., sort_keys=True)`. -/
def sortByKey : List (String × String) → List (String × String)
  | [] => []
  | p :: rest => insertSorted p (sortByKey rest)

/-- `json.dumps(json_dict, ensure_ascii=False, separators=(',', ':'),
sort_keys=True)` on a flat string-valued payload. -/
def canonical_json (d : List (String × String)) : String :=
  "\x7b" ++
    String.intercalate ","
      ((sortByKey d).map (fun p => "\"" ++ p.1 ++ "\":\"" ++ p.2 ++ "\"")) ++
  "\x7d"

/-- `Olm.sign_json` (NOT gated in the source): canonical serialization
signed with the account's long-term key; no persistence side effect. -/
def Olm.sign_json (st : OlmState) (json_dict : List (String × String)) : String :=
  st.account.sign (canonical_json json_dict)

/-- The chunking loop of `grouper` with an explicit structural bound (the
bound is always instantiated with the list's length, which the recursion
never exceeds for a positive chunk size). -/
def grouperGo (fill : Char) (n : Nat) : Nat → List Char → List (List Char)
  | _, [] => []
  | 0, _ => []
  | fuel + 1, l =>
    (l.take n ++ List.replicate (n - l.length) fill) :: grouperGo fill n fuel (l.drop n)

/-- `grouper(iterable, n, fillvalue)`: collect data into fixed-length blocks,
the last one padded with the fill value (`zip_longest` over `n` copies of one
iterator). -/
def grouper (n : Nat) (fill : Char) (l : List Char) : List (List Char) :=
  if n = 0 then [] else grouperGo fill n l.length l

/-- `partition_key(key)`: 4-character groups joined by single spaces, the
final group space-padded. -/
def partition_key (key : String) : String :=
  String.intercalate " " ((grouper 4 ' ' key.toList).map (fun g => String.mk g))

/-! ### Helper lemmas about the registry operations -/

theorem alookup_cons {α : Type} (p : String × α) (rest : List (String × α))
    (k : String) :
    alookup (p :: rest) k = if p.1 = k then some p.2 else alookup rest k := rfl

theorem ddSet_cons {α : Type} (p : String × α) (rest : List (String × α))
    (k : String) (v : α) :
    ddSet (p :: rest) k v =
      if p.1 = k then (k, v) :: rest else p :: ddSet rest k v := rfl

theorem ddEnsure_cons {α : Type} (p : String × α) (rest : List (String × α))
    (k : String) (d : α) :
    ddEnsure (p :: rest) k d =
      if p.1 = k then p :: rest else p :: ddEnsure rest k d := rfl

theorem ddAppend_cons {α : Type} (p : String × List α)
    (rest : List (String × List α)) (k : String) (x : α) :
    ddAppend (p :: rest) k x =
      if p.1 = k then (p.1, p.2 ++ [x]) :: rest else p :: ddAppend rest k x := rfl

theorem dd2Set_cons {α : Type} (p : String × List (String × α))
    (rest : List (String × List (String × α))) (r i : String) (v : α) :
    dd2Set (p :: rest) r i v =
      if p.1 = r then (p.1, ddSet p.2 i v) :: rest else p :: dd2Set rest r i v := rfl

theorem getD_ddEnsure_nil {α : Type} (l : List (String × List α)) (k k' : String) :
    getD (ddEnsure l k []) k' = getD l k' := by
  induction l with
  | nil =>
    show (alookup [(k, [])] k').getD [] = (alookup [] k').getD []
    rw [alookup_cons]
    by_cases h : k = k'
    · rw [if_pos h]
      rfl
    · rw [if_neg h]
  | cons p rest ih =>
    rw [ddEnsure_cons]
    by_cases h : p.1 = k
    · rw [if_pos h]
    · rw [if_neg h]
      show (alookup (p :: ddEnsure rest k []) k').getD [] =
        (alookup (p :: rest) k').getD []
      rw [alookup_cons, alookup_cons]
      by_cases h2 : p.1 = k'
      · rw [if_pos h2, if_pos h2]
      · rw [if_neg h2, if_neg h2]
        exact ih

theorem ddEnsure_of_none {α : Type} (l : List (String × α)) (k : String) (d : α)
    (h : alookup l k = none) : ddEnsure l k d = l ++ [(k, d)] := by
  induction l with
  | nil => rfl
  | cons p rest ih =>
    rw [alookup_cons] at h
    by_cases hp : p.1 = k
    · rw [if_pos hp] at h
      exact absurd h (by simp)
    · rw [if_neg hp] at h
      rw [ddEnsure_cons, if_neg hp, ih h, List.cons_append]

theorem ddEnsure_of_isSome {α : Type} (l : List (String × α)) (k : String) (d : α)
    (h : (alookup l k).isSome = true) : ddEnsure l k d = l := by
  induction l with
  | nil => simp [alookup] at h
  | cons p rest ih =>
    rw [alookup_cons] at h
    by_cases hp : p.1 = k
    · rw [ddEnsure_cons, if_pos hp]
    · rw [if_neg hp] at h
      rw [ddEnsure_cons, if_neg hp, ih h]

theorem alookup_ddSet {α : Type} (l : List (String × α)) (k : String) (v : α)
    (k' : String) :
    alookup (ddSet l k v) k' = if k' = k then some v else alookup l k' := by
  induction l with
  | nil =>
    show alookup [(k, v)] k' = if k' = k then some v else alookup [] k'
    rw [alookup_cons]
    by_cases h : k = k'
    · rw [if_pos h, if_pos h.symm]
    · rw [if_neg h, if_neg (fun hh => h hh.symm)]
  | cons p rest ih =>
    rw [ddSet_cons]
    by_cases hp : p.1 = k
    · rw [if_pos hp, alookup_cons]
      by_cases h : k = k'
      · rw [if_pos h, if_pos h.symm]
      · have h3 : ¬p.1 = k' := by rw [hp]; exact h
        rw [if_neg h, if_neg (fun hh => h hh.symm), alookup_cons, if_neg h3]
    · rw [if_neg hp, alookup_cons]
      by_cases h2 : p.1 = k'
      · have h3 : ¬k' = k := by
          intro hh
          exact hp (by rw [h2, hh])
        rw [if_pos h2, if_neg h3, alookup_cons, if_pos h2]
      · rw [if_neg h2, ih]
        by_cases hk : k' = k
        · rw [if_pos hk, if_pos hk]
        · rw [if_neg hk, if_neg hk, alookup_cons, if_neg h2]

theorem getD_ddSet {α : Type} (l : List (String × List α)) (k : String)
    (v : List α) (k' : String) :
    getD (ddSet l k v) k' = if k' = k then v else getD l k' := by
  unfold getD
  rw [alookup_ddSet]
  by_cases h : k' = k
  · rw [if_pos h, if_pos h]
    rfl
  · rw [if_neg h, if_neg h]

theorem alookup_ddAppend {α : Type} (l : List (String × List α)) (k : String)
    (x : α) (k' : String) :
    alookup (ddAppend l k x) k' =
      if k' = k then some ((alookup l k).getD [] ++ [x]) else alookup l k' := by
  induction l with
  | nil =>
    show alookup [(k, [x])] k' =
      if k' = k then some ((alookup ([] : List (String × List α)) k).getD [] ++ [x])
      else alookup [] k'
    rw [alookup_cons]
    by_cases h : k = k'
    · rw [if_pos h, if_pos h.symm]
      rfl
    · rw [if_neg h, if_neg (fun hh => h hh.symm)]
  | cons p rest ih =>
    rw [ddAppend_cons]
    by_cases hp : p.1 = k
    · rw [if_pos hp, alookup_cons]
      by_cases h : p.1 = k'
      · have hk : k' = k := by rw [← h, hp]
        rw [if_pos h, if_pos hk, alookup_cons, if_pos hp]
        rfl
      · have hk : ¬k' = k := by
          intro hh
          exact h (by rw [hp, hh])
        rw [if_neg h, if_neg hk, alookup_cons, if_neg h]
    · rw [if_neg hp, alookup_cons]
      by_cases h2 : p.1 = k'
      · have h3 : ¬k' = k := by
          intro hh
          exact hp (by rw [h2, hh])
        rw [if_pos h2, if_neg h3, alookup_cons, if_pos h2]
      · rw [if_neg h2, ih, alookup_cons, if_neg hp, alookup_cons, if_neg h2]

theorem getD_ddAppend {α : Type} (l : List (String × List α)) (k : String)
    (x : α) (k' : String) :
    getD (ddAppend l k x) k' = if k' = k then getD l k ++ [x] else getD l k' := by
  unfold getD
  rw [alookup_ddAppend]
  by_cases h : k' = k
  · rw [if_pos h, if_pos h]
    rfl
  · rw [if_neg h, if_neg h]

theorem glookup_ddEnsure_nil {α : Type}
    (g : List (String × List (String × α))) (r : String) (r' i : String) :
    glookup (ddEnsure g r []) r' i = glookup g r' i := by
  unfold glookup
  rw [getD_ddEnsure_nil]

theorem alookup_dd2Set {α : Type} (g : List (String × List (String × α)))
    (r i : String) (v : α) (r' : String) :
    alookup (dd2Set g r i v) r' =
      if r' = r then some (ddSet ((alookup g r).getD []) i v) else alookup g r' := by
  induction g with
  | nil =>
    show alookup [(r, [(i, v)])] r' =
      if r' = r
      then some (ddSet ((alookup ([] : List (String × List (String × α))) r).getD [])
        i v)
      else alookup [] r'
    rw [alookup_cons]
    by_cases h : r = r'
    · rw [if_pos h, if_pos h.symm]
      rfl
    · rw [if_neg h, if_neg (fun hh => h hh.symm)]
  | cons p rest ih =>
    rw [dd2Set_cons]
    by_cases hp : p.1 = r
    · rw [if_pos hp, alookup_cons]
      by_cases h : p.1 = r'
      · have hk : r' = r := by rw [← h, hp]
        rw [if_pos h, if_pos hk, alookup_cons, if_pos hp]
        rfl
      · have hk : ¬r' = r := by
          intro hh
          exact h (by rw [hp, hh])
        rw [if_neg h, if_neg hk, alookup_cons, if_neg h]
    · rw [if_neg hp, alookup_cons]
      by_cases h2 : p.1 = r'
      · have h3 : ¬r' = r := by
          intro hh
          exact hp (by rw [h2, hh])
        rw [if_pos h2, if_neg h3, alookup_cons, if_pos h2]
      · rw [if_neg h2, ih, alookup_cons, if_neg hp, alookup_cons, if_neg h2]

theorem glookup_dd2Set {α : Type} (g : List (String × List (String × α)))
    (r i : String) (v : α) (r' i' : String) :
    glookup (dd2Set g r i v) r' i' =
      if r' = r ∧ i' = i then some v else glookup g r' i' := by
  unfold glookup getD
  rw [alookup_dd2Set]
  by_cases hr : r' = r
  · rw [if_pos hr]
    show alookup (ddSet ((alookup g r).getD []) i v) i' = _
    rw [alookup_ddSet]
    by_cases hi : i' = i
    · rw [if_pos hi, if_pos ⟨hr, hi⟩]
    · rw [if_neg hi, if_neg (fun hc => hi hc.2), hr]
  · rw [if_neg hr, if_neg (fun hc => hr hc.1)]

/-! ### Helper lemmas about the decrypt loop -/

theorem trySessions_cons (s : PSession) (rest : List PSession) (m : OlmMessage) :
    trySessions (s :: rest) m =
      match attemptOne s m with
      | some r => some (r.1, r.2 :: rest)
      | none => (trySessions rest m).map (fun r => (r.1, s :: r.2)) := by
  by_cases h : m.isPreKey = true ∧ s.matchesP m = false
  · simp only [trySessions, attemptOne, if_pos h]
  · simp only [trySessions, attemptOne, if_neg h]
    cases hd : s.decryptP m with
    | ok r => cases r; simp [hd]
    | error e => simp [hd]

theorem trySessions_none (l : List PSession) (m : OlmMessage)
    (h : ∀ t ∈ l, attemptOne t m = none) : trySessions l m = none := by
  induction l with
  | nil => rfl
  | cons s rest ih =>
    rw [trySessions_cons, h s (by simp), ih (fun t ht => h t (by simp [ht]))]
    rfl

theorem trySessions_first (pre : List PSession) (s : PSession)
    (post : List PSession) (m : OlmMessage) (pt : String) (s' : PSession)
    (hpre : ∀ t ∈ pre, attemptOne t m = none)
    (hs : attemptOne s m = some (pt, s')) :
    trySessions (pre ++ s :: post) m = some (pt, pre ++ s' :: post) := by
  induction pre with
  | nil => rw [List.nil_append, trySessions_cons, hs]; rfl
  | cons t rest ih =>
    rw [List.cons_append, trySessions_cons, hpre t (by simp),
      ih (fun x hx => hpre x (by simp [hx]))]
    rfl

/-! ### Helper lemmas about the fingerprint formatter -/

theorem grouperGo_join4 (fill : Char) :
    ∀ (fuel : Nat) (l : List Char), l.length ≤ fuel →
      (grouperGo fill 4 fuel l).flatten =
        l ++ List.replicate ((4 - l.length % 4) % 4) fill := by
  intro fuel
  induction fuel with
  | zero =>
    intro l hl
    have hz : l = [] := List.eq_nil_of_length_eq_zero (Nat.le_zero.mp hl)
    subst hz
    simp [grouperGo]
  | succ fuel ih =>
    intro l hl
    cases l with
    | nil => simp [grouperGo]
    | cons c cs =>
      have hstep : grouperGo fill 4 (fuel + 1) (c :: cs) =
          ((c :: cs).take 4 ++ List.replicate (4 - (c :: cs).length) fill) ::
            grouperGo fill 4 fuel ((c :: cs).drop 4) := rfl
      rw [hstep, List.flatten_cons,
        ih ((c :: cs).drop 4) (by simp only [List.length_drop]; omega)]
      by_cases hlen : 4 ≤ (c :: cs).length
      · have h0 : 4 - (c :: cs).length = 0 := by omega
        have hmod : (((c :: cs).drop 4).length % 4) = (c :: cs).length % 4 := by
          simp only [List.length_drop]
          omega
        rw [h0, hmod]
        simp only [List.replicate_zero, List.append_nil, ← List.append_assoc,
          List.take_append_drop]
      · have hdrop : (c :: cs).drop 4 = [] :=
          List.drop_eq_nil_of_le (by omega)
        have htake : (c :: cs).take 4 = c :: cs :=
          List.take_of_length_le (by omega)
        have h1 : ((4 : Nat) - ((c :: cs).drop 4).length % 4) % 4 = 0 := by
          rw [hdrop]
          simp
        have h2 : ((4 : Nat) - (c :: cs).length % 4) % 4 = 4 - (c :: cs).length := by
          have : (c :: cs).length ≥ 1 := by simp
          omega
        rw [h1, hdrop, htake, h2]
        simp

theorem grouperGo_lengths4 (fill : Char) :
    ∀ (fuel : Nat) (l : List Char), l.length ≤ fuel →
      ((grouperGo fill 4 fuel l).all (fun g => g.length == 4)) = true := by
  intro fuel
  induction fuel with
  | zero =>
    intro l hl
    have hz : l = [] := List.eq_nil_of_length_eq_zero (Nat.le_zero.mp hl)
    subst hz
    rfl
  | succ fuel ih =>
    intro l hl
    cases l with
    | nil => rfl
    | cons c cs =>
      have hstep : grouperGo fill 4 (fuel + 1) (c :: cs) =
          ((c :: cs).take 4 ++ List.replicate (4 - (c :: cs).length) fill) ::
            grouperGo fill 4 fuel ((c :: cs).drop 4) := rfl
      rw [hstep, List.all_cons,
        ih ((c :: cs).drop 4) (by simp only [List.length_drop]; omega)]
      have hhead : ((c :: cs).take 4 ++ List.replicate (4 - (c :: cs).length) fill).length = 4 := by
        rw [List.length_append, List.length_replicate, List.length_take]
        rcases Nat.le_total 4 (c :: cs).length with hc | hc
        · rw [Nat.min_eq_left hc]
          omega
        · rw [Nat.min_eq_right hc]
          have hone : (c :: cs).length ≥ 1 := by simp
          omega
      simp only [hhead, Bool.and_true]
      decide

theorem grouperGo_count4 (fill : Char) :
    ∀ (fuel : Nat) (l : List Char), l.length ≤ fuel →
      (grouperGo fill 4 fuel l).length = (l.length + 3) / 4 := by
  intro fuel
  induction fuel with
  | zero =>
    intro l hl
    have hz : l = [] := List.eq_nil_of_length_eq_zero (Nat.le_zero.mp hl)
    subst hz
    rfl
  | succ fuel ih =>
    intro l hl
    cases l with
    | nil => rfl
    | cons c cs =>
      have hstep : grouperGo fill 4 (fuel + 1) (c :: cs) =
          ((c :: cs).take 4 ++ List.replicate (4 - (c :: cs).length) fill) ::
            grouperGo fill 4 fuel ((c :: cs).drop 4) := rfl
      rw [hstep, List.length_cons,
        ih ((c :: cs).drop 4) (by simp only [List.length_drop]; omega)]
      simp only [List.length_drop, List.length_cons]
      omega

/-- C9: `partition_key` renders every key string as consecutive 4-character
groups separated by single spaces, right-padding the final group with the
space fill character when the key length is not a multiple of 4; a
32-character key yields 8 groups with no padding and a 30-character key
yields a final group padded with two trailing spaces. -/
theorem partition_key_spec (s : String) :
    ((grouper 4 ' ' s.toList).all (fun g => g.length == 4)) = true ∧
    (grouper 4 ' ' s.toList).flatten =
      s.toList ++ List.replicate ((4 - s.toList.length % 4) % 4) ' ' ∧
    (grouper 4 ' ' s.toList).length = (s.toList.length + 3) / 4 ∧
    partition_key "ABCDEFGHIJKLMNOPQRSTUVWXYZabcdef" =
      "ABCD EFGH IJKL MNOP QRST UVWX YZab cdef" ∧
    partition_key "ABCDEFGHIJKLMNOPQRSTUVWXYZabcd" =
      "ABCD EFGH IJKL MNOP QRST UVWX YZab cd  " := by
  refine ⟨?_, ?_, ?_, by decide, by decide⟩
  · show ((grouperGo ' ' 4 s.toList.length s.toList).all (fun g => g.length == 4)) = true
    exact grouperGo_lengths4 ' ' s.toList.length s.toList (le_refl _)
  · show (grouperGo ' ' 4 s.toList.length s.toList).flatten = _
    exact grouperGo_join4 ' ' s.toList.length s.toList (le_refl _)
  · show (grouperGo ' ' 4 s.toList.length s.toList).length = _
    exact grouperGo_count4 ' ' s.toList.length s.toList (le_refl _)

/-- C10: `group_decrypt` on a room with no provisioned group sessions
(including a room the manager has never seen) returns `none` without
touching the store, and the only in-memory change is that the defaultdict
registry gains an empty entry for that room when it was absent; every
registry lookup is unchanged. -/
theorem group_decrypt_unknown_room (st : OlmState) (room sid : String)
    (ct : GroupCiphertext)
    (hen : st.enabled = true)
    (hroom : getD st.inbound_group_sessions room = []) :
    (Olm.group_decrypt st room sid ct).1 = none ∧
    (Olm.group_decrypt st room sid ct).2.database = st.database ∧
    (Olm.group_decrypt st room sid ct).2.sessions = st.sessions ∧
    (Olm.group_decrypt st room sid ct).2.account = st.account ∧
    (alookup st.inbound_group_sessions room = none →
      (Olm.group_decrypt st room sid ct).2.inbound_group_sessions =
        st.inbound_group_sessions ++ [(room, [])]) ∧
    ((alookup st.inbound_group_sessions room).isSome = true →
      (Olm.group_decrypt st room sid ct).2.inbound_group_sessions =
        st.inbound_group_sessions) ∧
    (∀ r i,
      glookup (Olm.group_decrypt st room sid ct).2.inbound_group_sessions r i =
        glookup st.inbound_group_sessions r i) := by
  have hnone : glookup (ddEnsure st.inbound_group_sessions room []) room sid = none := by
    unfold glookup
    rw [getD_ddEnsure_nil, hroom]
    rfl
  have hres : Olm.group_decrypt st room sid ct =
      (none, { st with inbound_group_sessions :=
        (ddEnsure st.inbound_group_sessions room []) }) := by
    unfold Olm.group_decrypt
    rw [if_pos hen]
    simp only [hnone]
  refine ⟨by rw [hres], by rw [hres], by rw [hres], by rw [hres], ?_, ?_, ?_⟩
  · intro habs
    rw [hres]
    exact ddEnsure_of_none st.inbound_group_sessions room [] habs
  · intro hsome
    rw [hres]
    exact ddEnsure_of_isSome st.inbound_group_sessions room [] hsome
  · intro r i
    rw [hres]
    exact glookup_ddEnsure_nil st.inbound_group_sessions room r i

/-! ### Path equations for `Olm.decrypt` and `Olm.group_decrypt` -/

theorem decrypt_existing (st : OlmState) (sender senderKey : String)
    (m : OlmMessage) (pt : String) (l : List PSession)
    (hen : st.enabled = true)
    (h : trySessions (getD st.sessions sender) m = some (pt, l)) :
    Olm.decrypt st sender senderKey m =
      (some pt, { st with sessions :=
        (ddSet (ddEnsure st.sessions sender []) sender l) }) := by
  unfold Olm.decrypt
  rw [if_pos hen]
  have h2 : trySessions (getD (ddEnsure st.sessions sender []) sender) m =
      some (pt, l) := by
    rw [getD_ddEnsure_nil]
    exact h
  simp only [h2]

theorem group_decrypt_none_eq (st : OlmState) (room sid : String)
    (ct : GroupCiphertext)
    (hen : st.enabled = true)
    (hk : glookup st.inbound_group_sessions room sid = none) :
    Olm.group_decrypt st room sid ct =
      (none, { st with inbound_group_sessions :=
        (ddEnsure st.inbound_group_sessions room []) }) := by
  unfold Olm.group_decrypt
  rw [if_pos hen]
  have hsc : glookup (ddEnsure st.inbound_group_sessions room []) room sid = none := by
    rw [glookup_ddEnsure_nil]
    exact hk
  simp only [hsc]

theorem group_decrypt_error_eq (st : OlmState) (room sid : String)
    (ct : GroupCiphertext) (s : GSession) (e : OlmErr)
    (hen : st.enabled = true)
    (hk : glookup st.inbound_group_sessions room sid = some s)
    (hd : s.decryptG ct = .error e) :
    Olm.group_decrypt st room sid ct =
      (none, { st with inbound_group_sessions :=
        (ddEnsure st.inbound_group_sessions room []) }) := by
  unfold Olm.group_decrypt
  rw [if_pos hen]
  have hsc : glookup (ddEnsure st.inbound_group_sessions room []) room sid = some s := by
    rw [glookup_ddEnsure_nil]
    exact hk
  simp only [hsc, hd]

theorem group_decrypt_ok_eq (st : OlmState) (room sid : String)
    (ct : GroupCiphertext) (s : GSession) (pt : String) (s' : GSession)
    (hen : st.enabled = true)
    (hk : glookup st.inbound_group_sessions room sid = some s)
    (hd : s.decryptG ct = .ok (pt, s')) :
    Olm.group_decrypt st room sid ct =
      (some pt, { st with inbound_group_sessions :=
        (dd2Set (ddEnsure st.inbound_group_sessions room []) room sid s') }) := by
  unfold Olm.group_decrypt
  rw [if_pos hen]
  have hsc : glookup (ddEnsure st.inbound_group_sessions room []) room sid = some s := by
    rw [glookup_ddEnsure_nil]
    exact hk
  simp only [hsc, hd]

/-! ### Claim theorems: pairwise decrypt dispatch -/

/-- C1: `decrypt` iterates the sender's pairwise sessions in creation
(insertion) order; a per-session provider decryption error is swallowed and
the next session is tried; the first session that decrypts successfully
determines the returned plaintext and later sessions are left untouched
(and the store is not involved on this path).  In particular, if only the
second-created of two sessions can decrypt a non-initial message, `decrypt`
still returns that session's plaintext. -/
theorem decrypt_iterates_in_order (st : OlmState) (sender senderKey : String)
    (m : OlmMessage) (pre post : List PSession) (s s' : PSession) (pt : String)
    (hen : st.enabled = true)
    (hl : getD st.sessions sender = pre ++ s :: post)
    (hpre : ∀ t ∈ pre, attemptOne t m = none)
    (hs : attemptOne s m = some (pt, s')) :
    (Olm.decrypt st sender senderKey m).1 = some pt ∧
    getD (Olm.decrypt st sender senderKey m).2.sessions sender = pre ++ s' :: post ∧
    (Olm.decrypt st sender senderKey m).2.database = st.database := by
  have htry : trySessions (getD st.sessions sender) m = some (pt, pre ++ s' :: post) := by
    rw [hl]
    exact trySessions_first pre s post m pt s' hpre hs
  have hres := decrypt_existing st sender senderKey m pt (pre ++ s' :: post) hen htry
  refine ⟨by rw [hres], ?_, by rw [hres]⟩
  rw [hres]
  show getD (ddSet (ddEnsure st.sessions sender []) sender (pre ++ s' :: post)) sender = _
  rw [getD_ddSet, if_pos rfl]

/-- The account and states used by the concrete witnesses and
counterexamples below. -/
def cA : Account :=
  { curve25519 := "idkey", ed25519 := "fpkey", oneTimeKeys := ["k3"],
    published := false }

def w1St : OlmState :=
  { enabled := true, user := "u", device_id := "dev", account := cA,
    sessions := [("alice", [{ skey := "k1", ratchet := 0 },
      { skey := "k2", ratchet := 0 }])],
    inbound_group_sessions := [],
    database :=
      { olmaccount := [("u", APickle.good cA)],
        olmsessions := [("alice", "k1", SPickle.good { skey := "k1", ratchet := 0 }),
          ("alice", "k2", SPickle.good { skey := "k2", ratchet := 0 })],
        inbound_group_sessions := [] } }

def w1Msg : OlmMessage :=
  { isPreKey := false, key := "k2", corrupt := false, body := "hi" }

/-- C1 witness: two sessions for one sender, a non-initial message only the
second can decrypt; the first session's error is swallowed and the second's
plaintext is returned with its ratchet advanced in place. -/
theorem decrypt_iterates_in_order_witness :
    (Olm.decrypt w1St "alice" "sk" w1Msg).1 = some "hi" ∧
    getD (Olm.decrypt w1St "alice" "sk" w1Msg).2.sessions "alice" =
      [{ skey := "k1", ratchet := 0 }] ++ { skey := "k2", ratchet := 1 } :: [] ∧
    (Olm.decrypt w1St "alice" "sk" w1Msg).2.database = w1St.database :=
  decrypt_iterates_in_order w1St "alice" "sk" w1Msg
    [{ skey := "k1", ratchet := 0 }] [] { skey := "k2", ratchet := 0 }
    { skey := "k2", ratchet := 1 } "hi" (by decide) (by decide) (by decide)
    (by decide)

def c2St : OlmState :=
  { enabled := true, user := "u", device_id := "dev", account := cA,
    sessions := [("alice", [{ skey := "k5", ratchet := 0 }])],
    inbound_group_sessions := [],
    database :=
      { olmaccount := [("u", APickle.good cA)],
        olmsessions := [("alice", "k5", SPickle.good { skey := "k5", ratchet := 0 })],
        inbound_group_sessions := [] } }

def c2Msg : OlmMessage :=
  { isPreKey := false, key := "k5", corrupt := false, body := "msg" }

/-- C2 counterexample: `decrypt` succeeds via an already-existing session
(the in-memory registry now holds the ratchet-advanced state, ratchet 1),
yet the stored row still holds the pre-decryption pickle (ratchet 0) when
the plaintext is returned — the stored pickle does NOT reflect the state
after that decryption. -/
theorem decrypt_persist_counterexample :
    (Olm.decrypt c2St "alice" "sk" c2Msg).1 = some "msg" ∧
    getD (Olm.decrypt c2St "alice" "sk" c2Msg).2.sessions "alice" =
      [{ skey := "k5", ratchet := 1 }] ∧
    (Olm.decrypt c2St "alice" "sk" c2Msg).2.database.olmsessions =
      [("alice", "k5", SPickle.good { skey := "k5", ratchet := 0 })] ∧
    SPickle.good { skey := "k5", ratchet := 1 } ≠
      SPickle.good { skey := "k5", ratchet := 0 } := by
  decide

/-- C2 (amended): when `decrypt` succeeds using an already-existing pairwise
session, the ratchet-advanced session state is recorded only in the
in-memory registry; the persistent store is not written at all on this path
(the stored pickle keeps the pre-decryption state until an explicit save or
a session-creating decrypt), and the account is untouched. -/
theorem decrypt_existing_no_store_write (st : OlmState) (sender senderKey : String)
    (m : OlmMessage) (pt : String) (l : List PSession)
    (hen : st.enabled = true)
    (h : trySessions (getD st.sessions sender) m = some (pt, l)) :
    (Olm.decrypt st sender senderKey m).1 = some pt ∧
    getD (Olm.decrypt st sender senderKey m).2.sessions sender = l ∧
    (Olm.decrypt st sender senderKey m).2.database = st.database ∧
    (Olm.decrypt st sender senderKey m).2.account = st.account := by
  have hres := decrypt_existing st sender senderKey m pt l hen h
  refine ⟨by rw [hres], ?_, by rw [hres], by rw [hres]⟩
  rw [hres]
  show getD (ddSet (ddEnsure st.sessions sender []) sender l) sender = l
  rw [getD_ddSet, if_pos rfl]

/-- C2 (amended) witness. -/
theorem decrypt_existing_no_store_write_witness :
    (Olm.decrypt c2St "alice" "sk" c2Msg).1 = some "msg" ∧
    (Olm.decrypt c2St "alice" "sk" c2Msg).2.database = c2St.database := by
  obtain ⟨h1, _, h3, _⟩ :=
    decrypt_existing_no_store_write c2St "alice" "sk" c2Msg "msg"
      [{ skey := "k5", ratchet := 1 }] (by decide) (by decide)
  exact ⟨h1, h3⟩

/-- C4: for a message that is NOT an initial/pre-key message, when no
existing session of the sender decrypts it, `decrypt` returns `none` and the
store, the account, the group registry and every sender's session list are
unchanged (the attempted session bootstrap fails inside the provider before
any mutation). -/
theorem decrypt_noninitial_absent (st : OlmState) (sender senderKey : String)
    (m : OlmMessage)
    (hen : st.enabled = true)
    (hpk : m.isPreKey = false)
    (hall : ∀ t ∈ getD st.sessions sender, attemptOne t m = none) :
    (Olm.decrypt st sender senderKey m).1 = none ∧
    (Olm.decrypt st sender senderKey m).2.database = st.database ∧
    (Olm.decrypt st sender senderKey m).2.account = st.account ∧
    (Olm.decrypt st sender senderKey m).2.inbound_group_sessions =
      st.inbound_group_sessions ∧
    (∀ u, getD (Olm.decrypt st sender senderKey m).2.sessions u = getD st.sessions u) := by
  have hres : Olm.decrypt st sender senderKey m =
      (none, { st with sessions := (ddEnsure st.sessions sender []) }) := by
    unfold Olm.decrypt
    rw [if_pos hen]
    have h2 : trySessions (getD (ddEnsure st.sessions sender []) sender) m = none := by
      rw [getD_ddEnsure_nil]
      exact trySessions_none _ m hall
    have h3 : Olm._create_session
        { st with sessions := (ddEnsure st.sessions sender []) } sender senderKey m =
        .error .olmSessionError := by
      unfold Olm._create_session InboundSession.create
      rw [if_neg (fun hc => by rw [hpk] at hc; exact Bool.false_ne_true hc.1)]
    simp only [h2, h3]
  refine ⟨by rw [hres], by rw [hres], by rw [hres], by rw [hres], ?_⟩
  intro u
  rw [hres]
  show getD (ddEnsure st.sessions sender []) u = getD st.sessions u
  exact getD_ddEnsure_nil st.sessions sender u

/-- C4 witness: a sender with zero sessions and a non-initial message. -/
theorem decrypt_noninitial_absent_witness :
    (Olm.decrypt w1St "bob" "sk" w1Msg).1 = none ∧
    (Olm.decrypt w1St "bob" "sk" w1Msg).2.database = w1St.database ∧
    (Olm.decrypt w1St "bob" "sk" w1Msg).2.account = w1St.account := by
  obtain ⟨h1, h2, h3, _, _⟩ :=
    decrypt_noninitial_absent w1St "bob" "sk" w1Msg (by decide) (by decide)
      (by decide)
  exact ⟨h1, h2, h3⟩

/-! ### Claim theorems: group sessions -/

/-- C5: `group_decrypt` returns `none` when no group session is registered
under `(room, session_id)`; when one is registered, a provider decryption
error yields `none` and a successful decryption yields the plaintext (with
the advanced session re-registered in place).  `create_group_session`
followed immediately by `group_decrypt` on ciphertext produced under that
key returns the expected plaintext, and `group_decrypt` never creates a
group session implicitly (the set of registered `(room, session id)` pairs
is unchanged). -/
theorem group_decrypt_spec (st : OlmState) (room sid : String)
    (ct : GroupCiphertext) (key b : String)
    (hen : st.enabled = true) :
    (glookup st.inbound_group_sessions room sid = none →
      (Olm.group_decrypt st room sid ct).1 = none) ∧
    (∀ s e, glookup st.inbound_group_sessions room sid = some s →
      s.decryptG ct = .error e →
      (Olm.group_decrypt st room sid ct).1 = none) ∧
    (∀ s pt s', glookup st.inbound_group_sessions room sid = some s →
      s.decryptG ct = .ok (pt, s') →
      (Olm.group_decrypt st room sid ct).1 = some pt ∧
      glookup (Olm.group_decrypt st room sid ct).2.inbound_group_sessions room sid =
        some s') ∧
    ((Olm.group_decrypt (Olm.create_group_session st room sid key) room sid
        { key := key, body := b }).1 = some b) ∧
    (∀ r i,
      (glookup (Olm.group_decrypt st room sid ct).2.inbound_group_sessions r i).isSome =
        (glookup st.inbound_group_sessions r i).isSome) := by
  refine ⟨?_, ?_, ?_, ?_, ?_⟩
  · intro hk
    rw [group_decrypt_none_eq st room sid ct hen hk]
  · intro s e hk hd
    rw [group_decrypt_error_eq st room sid ct s e hen hk hd]
  · intro s pt s' hk hd
    rw [group_decrypt_ok_eq st room sid ct s pt s' hen hk hd]
    constructor
    · rfl
    · show glookup (dd2Set (ddEnsure st.inbound_group_sessions room []) room sid s')
        room sid = some s'
      rw [glookup_dd2Set, if_pos ⟨rfl, rfl⟩]
  · have hreg : glookup (Olm.create_group_session st room sid key).inbound_group_sessions
        room sid = some { gkey := key, ratchet := 0 } := by
      show glookup (dd2Set st.inbound_group_sessions room sid
        { gkey := key, ratchet := 0 }) room sid = _
      rw [glookup_dd2Set, if_pos ⟨rfl, rfl⟩]
    have hd : GSession.decryptG { gkey := key, ratchet := 0 } { key := key, body := b } =
        .ok (b, { gkey := key, ratchet := 1 }) := by
      unfold GSession.decryptG
      rw [if_pos rfl]
    have hen' : (Olm.create_group_session st room sid key).enabled = true := hen
    rw [group_decrypt_ok_eq (Olm.create_group_session st room sid key) room sid
      { key := key, body := b } { gkey := key, ratchet := 0 } b
      { gkey := key, ratchet := 1 } hen' hreg hd]
  · intro r i
    cases hk : glookup st.inbound_group_sessions room sid with
    | none =>
      rw [group_decrypt_none_eq st room sid ct hen hk]
      show (glookup (ddEnsure st.inbound_group_sessions room []) r i).isSome = _
      rw [glookup_ddEnsure_nil]
    | some s =>
      cases hd : s.decryptG ct with
      | error e =>
        rw [group_decrypt_error_eq st room sid ct s e hen hk hd]
        show (glookup (ddEnsure st.inbound_group_sessions room []) r i).isSome = _
        rw [glookup_ddEnsure_nil]
      | ok r2 =>
        rw [group_decrypt_ok_eq st room sid ct s r2.1 r2.2 hen hk (by rw [hd])]
        show (glookup (dd2Set (ddEnsure st.inbound_group_sessions room []) room sid r2.2)
          r i).isSome = _
        rw [glookup_dd2Set, glookup_ddEnsure_nil]
        by_cases hc : r = room ∧ i = sid
        · rw [if_pos hc, hc.1, hc.2, hk]
          rfl
        · rw [if_neg hc]

/-- C5 witness. -/
theorem group_decrypt_spec_witness :
    (Olm.group_decrypt (Olm.create_group_session w1St "room1" "sid1" "gk1")
      "room1" "sid1" { key := "gk1", body := "pt1" }).1 = some "pt1" ∧
    (Olm.group_decrypt w1St "room1" "sid9" { key := "gk1", body := "pt1" }).1 = none := by
  obtain ⟨ha, _, _, hb, _⟩ :=
    group_decrypt_spec w1St "room1" "sid1" { key := "gk1", body := "pt1" } "gk1" "pt1"
      (by decide)
  refine ⟨hb, ?_⟩
  obtain ⟨hc, _, _, _, _⟩ :=
    group_decrypt_spec w1St "room1" "sid9" { key := "gk1", body := "pt1" } "gk1" "pt1"
      (by decide)
  exact hc (by decide)

def w10St : OlmState :=
  { enabled := true, user := "u", device_id := "dev", account := cA,
    sessions := [], inbound_group_sessions := [],
    database :=
      { olmaccount := [("u", APickle.good cA)], olmsessions := [],
        inbound_group_sessions := [] } }

/-- C10 witness: a never-seen room. -/
theorem group_decrypt_unknown_room_witness :
    (Olm.group_decrypt w10St "r1" "i1" { key := "gk", body := "b" }).1 = none ∧
    (Olm.group_decrypt w10St "r1" "i1" { key := "gk", body := "b" }).2.database =
      w10St.database ∧
    (Olm.group_decrypt w10St "r1" "i1" { key := "gk", body := "b" }).2.inbound_group_sessions =
      w10St.inbound_group_sessions ++ [("r1", [])] := by
  obtain ⟨h1, h2, _, _, h5, _, _⟩ :=
    group_decrypt_unknown_room w10St "r1" "i1" { key := "gk", body := "b" }
      (by decide) (by decide)
  exact ⟨h1, h2, h5 (by decide)⟩

/-! ### Claim theorems: session bootstrap from a pre-key message -/

theorem create_session_ok (st : OlmState) (sender senderKey : String)
    (m : OlmMessage)
    (hpk : m.isPreKey = true)
    (hotk : m.key ∈ st.account.oneTimeKeys) :
    Olm._create_session st sender senderKey m =
      .ok ({ skey := m.key, ratchet := 0 },
        { st with
            sessions := ddAppend st.sessions sender { skey := m.key, ratchet := 0 },
            account := st.account.remove_one_time_keys { skey := m.key, ratchet := 0 },
            database :=
              { olmaccount := updAccRows st.database.olmaccount st.user
                  (st.account.remove_one_time_keys { skey := m.key, ratchet := 0 }),
                olmsessions := st.database.olmsessions ++
                  [(sender, m.key, SPickle.good { skey := m.key, ratchet := 0 })],
                inbound_group_sessions := st.database.inbound_group_sessions } }) := by
  unfold Olm._create_session
  rw [show InboundSession.create st.account m senderKey =
      .ok { skey := m.key, ratchet := 0 } from by
    unfold InboundSession.create
    rw [if_pos ⟨hpk, hotk⟩]]
  rfl

/-- C3: for a sender with zero sessions, `decrypt` on a valid initial
pre-key message derives exactly one new inbound session from the account and
the message, appends it at the end of that sender's session list, inserts
exactly one new session row, consumes the one-time key and updates the
account row, and retries decryption exactly once: on a clean payload the
plaintext is returned (and the in-memory session advances to ratchet 1); on
a rejected payload `decrypt` returns `none` with no further retries (the
created session and its row remain). -/
theorem decrypt_bootstrap (st : OlmState) (sender senderKey : String)
    (m : OlmMessage)
    (hen : st.enabled = true)
    (h0 : getD st.sessions sender = [])
    (hpk : m.isPreKey = true)
    (hotk : m.key ∈ st.account.oneTimeKeys) :
    (m.corrupt = false →
      (Olm.decrypt st sender senderKey m).1 = some m.body ∧
      getD (Olm.decrypt st sender senderKey m).2.sessions sender =
        [{ skey := m.key, ratchet := 1 }]) ∧
    (m.corrupt = true →
      (Olm.decrypt st sender senderKey m).1 = none ∧
      getD (Olm.decrypt st sender senderKey m).2.sessions sender =
        [{ skey := m.key, ratchet := 0 }]) ∧
    (∀ u, u ≠ sender →
      getD (Olm.decrypt st sender senderKey m).2.sessions u = getD st.sessions u) ∧
    (Olm.decrypt st sender senderKey m).2.database.olmsessions =
      st.database.olmsessions ++
        [(sender, m.key, SPickle.good { skey := m.key, ratchet := 0 })] ∧
    (Olm.decrypt st sender senderKey m).2.account =
      { st.account with oneTimeKeys := st.account.oneTimeKeys.erase m.key } ∧
    (Olm.decrypt st sender senderKey m).2.database.olmaccount =
      updAccRows st.database.olmaccount st.user
        { st.account with oneTimeKeys := st.account.oneTimeKeys.erase m.key } ∧
    (Olm.decrypt st sender senderKey m).2.database.inbound_group_sessions =
      st.database.inbound_group_sessions := by
  have h2 : trySessions (getD (ddEnsure st.sessions sender []) sender) m = none := by
    rw [getD_ddEnsure_nil, h0]
    rfl
  have hcr := create_session_ok
    { st with sessions := (ddEnsure st.sessions sender []) } sender senderKey m hpk hotk
  have hget2 : getD (ddAppend (ddEnsure st.sessions sender []) sender
      { skey := m.key, ratchet := 0 }) sender = [{ skey := m.key, ratchet := 0 }] := by
    rw [getD_ddAppend, if_pos rfl, getD_ddEnsure_nil, h0]
    rfl
  cases hcorr : m.corrupt with
  | false =>
    have hdec : PSession.decryptP { skey := m.key, ratchet := 0 } m =
        .ok (m.body, { skey := m.key, ratchet := 1 }) := by
      unfold PSession.decryptP
      rw [if_pos ⟨rfl, hcorr⟩]
    have hres : Olm.decrypt st sender senderKey m =
        (some m.body,
          { st with
              sessions := ddSet (ddAppend (ddEnsure st.sessions sender []) sender
                  { skey := m.key, ratchet := 0 }) sender
                ((getD (ddAppend (ddEnsure st.sessions sender []) sender
                  { skey := m.key, ratchet := 0 }) sender).dropLast ++
                  [{ skey := m.key, ratchet := 1 }]),
              account := st.account.remove_one_time_keys { skey := m.key, ratchet := 0 },
              database :=
                { olmaccount := updAccRows st.database.olmaccount st.user
                    (st.account.remove_one_time_keys { skey := m.key, ratchet := 0 }),
                  olmsessions := st.database.olmsessions ++
                    [(sender, m.key, SPickle.good { skey := m.key, ratchet := 0 })],
                  inbound_group_sessions := st.database.inbound_group_sessions } }) := by
      unfold Olm.decrypt
      rw [if_pos hen]
      simp only [h2, hcr, hdec]
    refine ⟨fun _ => ⟨by rw [hres], ?_⟩,
      fun hcontra => absurd hcontra Bool.false_ne_true, ?_,
      by rw [hres]; try rfl,
      by rw [hres]; try rfl, by rw [hres]; try rfl, by rw [hres]; try rfl⟩
    · rw [hres]
      show getD (ddSet _ sender _) sender = _
      rw [getD_ddSet, if_pos rfl, hget2]
      rfl
    · intro u hu
      rw [hres]
      show getD (ddSet _ sender _) u = _
      rw [getD_ddSet, if_neg hu, getD_ddAppend, if_neg hu, getD_ddEnsure_nil]
  | true =>
    have hdec : PSession.decryptP { skey := m.key, ratchet := 0 } m =
        .error .olmSessionError := by
      unfold PSession.decryptP
      rw [if_neg (fun hc => by rw [hcorr] at hc; exact Bool.false_ne_true hc.2.symm)]
    have hres : Olm.decrypt st sender senderKey m =
        (none,
          { st with
              sessions := ddAppend (ddEnsure st.sessions sender []) sender
                { skey := m.key, ratchet := 0 },
              account := st.account.remove_one_time_keys { skey := m.key, ratchet := 0 },
              database :=
                { olmaccount := updAccRows st.database.olmaccount st.user
                    (st.account.remove_one_time_keys { skey := m.key, ratchet := 0 }),
                  olmsessions := st.database.olmsessions ++
                    [(sender, m.key, SPickle.good { skey := m.key, ratchet := 0 })],
                  inbound_group_sessions := st.database.inbound_group_sessions } }) := by
      unfold Olm.decrypt
      rw [if_pos hen]
      simp only [h2, hcr, hdec]
    refine ⟨fun hcontra => absurd hcontra.symm Bool.false_ne_true,
      fun _ => ⟨by rw [hres], ?_⟩, ?_, by rw [hres]; try rfl,
      by rw [hres]; try rfl, by rw [hres]; try rfl, by rw [hres]; try rfl⟩
    · rw [hres]
      exact hget2
    · intro u hu
      rw [hres]
      show getD (ddAppend (ddEnsure st.sessions sender []) sender _) u = _
      rw [getD_ddAppend, if_neg hu, getD_ddEnsure_nil]

/-- C3 witness: the sender `bob` has zero sessions, the account holds the
one-time key `k3`, and the pre-key message decrypts after the bootstrap. -/
theorem decrypt_bootstrap_witness :
    (Olm.decrypt w1St "bob" "sk"
      { isPreKey := true, key := "k3", corrupt := false, body := "boot" }).1 =
        some "boot" ∧
    getD (Olm.decrypt w1St "bob" "sk"
      { isPreKey := true, key := "k3", corrupt := false, body := "boot" }).2.sessions
        "bob" = [{ skey := "k3", ratchet := 1 }] ∧
    (Olm.decrypt w1St "bob" "sk"
      { isPreKey := true, key := "k3", corrupt := false, body := "boot" }).2.database.olmsessions =
      w1St.database.olmsessions ++ [("bob", "k3", SPickle.good { skey := "k3", ratchet := 0 })] := by
  obtain ⟨hok, _, _, hrow, _, _, _⟩ :=
    decrypt_bootstrap w1St "bob" "sk"
      { isPreKey := true, key := "k3", corrupt := false, body := "boot" }
      (by decide) (by decide) (by decide) (by decide)
  obtain ⟨h1, h2⟩ := hok (by decide)
  exact ⟨h1, h2, hrow⟩

/-! ### Claim theorems: the capability gate -/

def c6St : OlmState :=
  { enabled := false, user := "u", device_id := "dev", account := cA,
    sessions := [], inbound_group_sessions := [],
    database :=
      { olmaccount := [("u", APickle.good cA)], olmsessions := [],
        inbound_group_sessions := [] } }

/-- C6 counterexample: with the gate off, `create_group_session` is NOT a
no-op — it still registers the group session in memory and inserts its row
into the store, and `sign_json` still returns a non-empty signature —
contradicting the claim that every exposed operation (including
`create_group_session` and `sign`) is a state-preserving no-op returning an
empty/absent result when the gate is off. -/
theorem encrypt_gate_counterexample :
    c6St.enabled = false ∧
    (Olm.create_group_session c6St "r" "i" "k").database.inbound_group_sessions ≠
      c6St.database.inbound_group_sessions ∧
    (Olm.create_group_session c6St "r" "i" "k").inbound_group_sessions ≠
      c6St.inbound_group_sessions ∧
    Olm.sign_json c6St [] ≠ "" := by
  decide

/-- C6 (amended): when the capability gate is off, `decrypt`,
`group_decrypt`, `mark_keys_as_published`, save (`to_session_dir`) and load
(`from_session_dir`) are guaranteed no-ops returning an empty/absent result
and mutating nothing; but `create_group_session` and `sign` are not gated:
`create_group_session` registers the new group session and inserts its row
regardless of the gate, and `sign_json` computes and returns the signature
regardless of the gate. -/
theorem encrypt_gate_behaviour (st : OlmState)
    (sender senderKey room sid gk u d : String)
    (m : OlmMessage) (ct : GroupCiphertext) (db : Database)
    (payload : List (String × String))
    (hoff : st.enabled = false) :
    Olm.decrypt st sender senderKey m = (none, st) ∧
    Olm.group_decrypt st room sid ct = (none, st) ∧
    Olm.mark_keys_as_published st = st ∧
    Olm.to_session_dir st = st ∧
    Olm.from_session_dir false u d db = none ∧
    (Olm.create_group_session st room sid gk).database.inbound_group_sessions =
      st.database.inbound_group_sessions ++
        [(room, gk, GPickle.good { gkey := gk, ratchet := 0 })] ∧
    glookup (Olm.create_group_session st room sid gk).inbound_group_sessions
      room sid = some { gkey := gk, ratchet := 0 } ∧
    Olm.sign_json st payload = st.account.sign (canonical_json payload) := by
  have hne : ¬st.enabled = true := by
    rw [hoff]
    exact Bool.false_ne_true
  refine ⟨?_, ?_, ?_, ?_, ?_, rfl, ?_, rfl⟩
  · unfold Olm.decrypt
    rw [if_neg hne]
  · unfold Olm.group_decrypt
    rw [if_neg hne]
  · unfold Olm.mark_keys_as_published
    rw [if_neg hne]
  · unfold Olm.to_session_dir
    rw [if_neg hne]
  · unfold Olm.from_session_dir
    rw [if_neg Bool.false_ne_true]
  · show glookup (dd2Set st.inbound_group_sessions room sid
      { gkey := gk, ratchet := 0 }) room sid = _
    rw [glookup_dd2Set, if_pos ⟨rfl, rfl⟩]

/-- C6 (amended) witness. -/
theorem encrypt_gate_behaviour_witness :
    Olm.decrypt c6St "a" "sk" w1Msg = (none, c6St) ∧
    Olm.to_session_dir c6St = c6St ∧
    Olm.from_session_dir false "u" "dev" c6St.database = none ∧
    (Olm.create_group_session c6St "r" "i" "k").database.inbound_group_sessions =
      c6St.database.inbound_group_sessions ++
        [("r", "k", GPickle.good { gkey := "k", ratchet := 0 })] := by
  obtain ⟨h1, _, _, h4, h5, h6, _, _⟩ :=
    encrypt_gate_behaviour c6St "a" "sk" "r" "i" "k" "u" "dev" w1Msg
      { key := "g", body := "b" } c6St.database [] (by decide)
  exact ⟨h1, h4, h5, h6⟩

/-! ### Claim theorems: load-time error handling -/

theorem loadSessionsAux_corrupt_mem :
    ∀ (rows : List (String × String × SPickle)) (acc : List (String × List PSession)),
      (∃ u sid, (u, sid, SPickle.corrupt) ∈ rows) →
      loadSessionsAux rows acc = .error .olmSessionError := by
  intro rows
  induction rows with
  | nil =>
    intro acc h
    obtain ⟨u, sid, hmem⟩ := h
    cases hmem
  | cons r rest ih =>
    obtain ⟨u0, sid0, p⟩ := r
    intro acc h
    cases p with
    | good s =>
      obtain ⟨u, sid, hmem⟩ := h
      cases hmem with
      | tail _ hm => exact ih (ddAppend acc u0 s) ⟨u, sid, hm⟩
    | corrupt => rfl

theorem loadGroupAux_corrupt_mem :
    ∀ (rows : List (String × String × GPickle))
      (acc : List (String × List (String × GSession))),
      (∃ r sid, (r, sid, GPickle.corrupt) ∈ rows) →
      loadGroupAux rows acc = .error .olmGroupSessionError := by
  intro rows
  induction rows with
  | nil =>
    intro acc h
    obtain ⟨r, sid, hmem⟩ := h
    cases hmem
  | cons row rest ih =>
    obtain ⟨r0, sid0, p⟩ := row
    intro acc h
    cases p with
    | good g =>
      obtain ⟨r, sid, hmem⟩ := h
      cases hmem with
      | tail _ hm => exact ih (dd2Set acc r0 g.gid g) ⟨r, sid, hm⟩
    | corrupt => rfl

/-- C8 (amended): during `from_session_dir`, a corrupt account pickle or a
corrupt pairwise-session pickle aborts the whole load with the repository's
single `EncryptionError` kind; a corrupt group-session pickle also aborts
the whole load — no manager built from partially loaded state is ever
returned and no corrupt row is silently dropped — but it escapes as the
provider's raw `OlmGroupSessionError`, because the loader catches only
`OlmAccountError` and `OlmSessionError`. -/
theorem load_error_kinds (db : Database) (user device : String) :
    (firstAcc db.olmaccount user = some .corrupt →
      Olm.from_session_dir true user device db = some (.error .encryptionError)) ∧
    (∀ u sid a, firstAcc db.olmaccount user = some (.good a) →
      (u, sid, SPickle.corrupt) ∈ db.olmsessions →
      Olm.from_session_dir true user device db = some (.error .encryptionError)) ∧
    (∀ r sid a reg, firstAcc db.olmaccount user = some (.good a) →
      loadSessionsAux db.olmsessions [] = .ok reg →
      (r, sid, GPickle.corrupt) ∈ db.inbound_group_sessions →
      Olm.from_session_dir true user device db =
        some (.error .olmGroupSessionError)) := by
  refine ⟨?_, ?_, ?_⟩
  · intro hacc
    unfold Olm.from_session_dir
    rw [if_pos rfl, hacc]
    rfl
  · intro u sid a hacc hmem
    have hs : loadSessionsAux db.olmsessions [] = .error .olmSessionError :=
      loadSessionsAux_corrupt_mem db.olmsessions [] ⟨u, sid, hmem⟩
    have hcore : loadCore db (APickle.good a) = .error .olmSessionError := by
      unfold loadCore
      rw [show APickle.from_pickle (APickle.good a) = .ok a from rfl]
      show loadSessionsAux db.olmsessions [] >>= _ = _
      rw [hs]
      rfl
    unfold Olm.from_session_dir
    rw [if_pos rfl, hacc]
    simp only [hcore]
  · intro r sid a reg hacc hreg hmem
    have hg : loadGroupAux db.inbound_group_sessions [] =
        .error .olmGroupSessionError :=
      loadGroupAux_corrupt_mem db.inbound_group_sessions [] ⟨r, sid, hmem⟩
    have hcore : loadCore db (APickle.good a) = .error .olmGroupSessionError := by
      unfold loadCore
      rw [show APickle.from_pickle (APickle.good a) = .ok a from rfl]
      show loadSessionsAux db.olmsessions [] >>= _ = _
      rw [hreg]
      show loadGroupAux db.inbound_group_sessions [] >>= _ = _
      rw [hg]
      rfl
    unfold Olm.from_session_dir
    rw [if_pos rfl, hacc]
    simp only [hcore]

def c8DbA : Database :=
  { olmaccount := [("u", APickle.corrupt)], olmsessions := [],
    inbound_group_sessions := [] }

def c8DbS : Database :=
  { olmaccount := [("u", APickle.good cA)],
    olmsessions := [("v", "s", SPickle.corrupt)],
    inbound_group_sessions := [] }

def c8DbG : Database :=
  { olmaccount := [("u", APickle.good cA)], olmsessions := [],
    inbound_group_sessions := [("r", "x", GPickle.corrupt)] }

/-- C8 counterexample: with a corrupt group-session pickle the load aborts,
but with the provider's raw `OlmGroupSessionError`, not the single distinct
load-error kind (`EncryptionError`) the claim requires for every corrupt
blob. -/
theorem load_error_kinds_counterexample :
    Olm.from_session_dir true "u" "dev" c8DbG =
      some (.error .olmGroupSessionError) ∧
    LoadErr.olmGroupSessionError ≠ LoadErr.encryptionError := by
  decide

/-- C8 (amended) witness: the three corrupt-pickle cases at concrete
databases. -/
theorem load_error_kinds_witness :
    Olm.from_session_dir true "u" "dev" c8DbA = some (.error .encryptionError) ∧
    Olm.from_session_dir true "u" "dev" c8DbS = some (.error .encryptionError) ∧
    Olm.from_session_dir true "u" "dev" c8DbG =
      some (.error .olmGroupSessionError) := by
  obtain ⟨h1, _, _⟩ := load_error_kinds c8DbA "u" "dev"
  obtain ⟨_, h2, _⟩ := load_error_kinds c8DbS "u" "dev"
  obtain ⟨_, _, h3⟩ := load_error_kinds c8DbG "u" "dev"
  exact ⟨h1 (by decide), h2 "v" "s" cA (by decide) (by decide),
    h3 "r" "x" cA [] (by decide) (by decide) (by decide)⟩

/-! ### Save/load round trip: auxiliary notions

`_update_sessions_in_db` is a nested fold of row updates over the registry;
the lemmas below reshape it into a single per-row function so that the
subsequent reload can be analysed row by row. -/

/-- One row update of `_update_sessions_in_db`, seen from the row's side. -/
def upd1 (q : String × PSession) (r : String × String × SPickle) :
    String × String × SPickle :=
  if r.1 = q.1 ∧ r.2.1 = q.2.sid then (r.1, r.2.1, SPickle.good q.2) else r

/-- The registry flattened to (sender, session) pairs in iteration order. -/
def flatPairs : List (String × List PSession) → List (String × PSession)
  | [] => []
  | (u, l) :: rest => l.map (fun s => (u, s)) ++ flatPairs rest

/-- The last (sender, session) pair of the flattened registry whose sender
is `u` and whose session id is `i` — the update that wins on a row
`(u, i, _)`. -/
def lastMatch : List (String × PSession) → String → String → Option PSession
  | [], _, _ => none
  | q :: rest, u, i =>
    match lastMatch rest u i with
    | some s => some s
    | none => if u = q.1 ∧ i = q.2.sid then some q.2 else none

/-- The last session of a list with id `i`. -/
def lastSess : List PSession → String → Option PSession
  | [], _ => none
  | s :: rest, i =>
    match lastSess rest i with
    | some t => some t
    | none => if i = s.sid then some s else none

/-- The session-id column of the `olmsessions` rows belonging to `u`, in
row order. -/
def sessRowsFor : List (String × String × SPickle) → String → List (String × SPickle)
  | [], _ => []
  | r :: rest, u =>
    if r.1 = u then (r.2.1, r.2.2) :: sessRowsFor rest u else sessRowsFor rest u

/-- The sessions a successful `loadSessionsAux` run appends for `u`, in row
order (corrupt rows cannot occur on a successful run and are skipped). -/
def extractGood : List (String × String × SPickle) → String → List PSession
  | [], _ => []
  | (u0, _, SPickle.good s) :: rest, u =>
    if u0 = u then s :: extractGood rest u else extractGood rest u
  | (_, _, SPickle.corrupt) :: rest, u => extractGood rest u

theorem foldl_sessions_eq_flat (sessions : List (String × List PSession)) :
    ∀ rows : List (String × String × SPickle),
      sessions.foldl
        (fun rows p => p.2.foldl (fun rows s => updSessRows rows p.1 s.sid s) rows)
        rows =
      (flatPairs sessions).foldl
        (fun rows q => updSessRows rows q.1 q.2.sid q.2) rows := by
  induction sessions with
  | nil =>
    intro rows
    rfl
  | cons p rest ih =>
    obtain ⟨u, l⟩ := p
    intro rows
    rw [List.foldl_cons, ih,
      show flatPairs ((u, l) :: rest) = l.map (fun s => (u, s)) ++ flatPairs rest
        from rfl,
      List.foldl_append, List.foldl_map]

theorem foldl_updSessRows_map (qs : List (String × PSession)) :
    ∀ rows : List (String × String × SPickle),
      qs.foldl (fun rows q => updSessRows rows q.1 q.2.sid q.2) rows =
      rows.map (fun r => qs.foldl (fun r q => upd1 q r) r) := by
  induction qs with
  | nil =>
    intro rows
    simp
  | cons q rest ih =>
    intro rows
    rw [List.foldl_cons,
      show updSessRows rows q.1 q.2.sid q.2 = rows.map (upd1 q) from rfl, ih,
      List.map_map]
    rfl

theorem foldl_upd1_row (u i : String) :
    ∀ (qs : List (String × PSession)) (p : SPickle),
      qs.foldl (fun r q => upd1 q r) (u, i, p) =
        (u, i,
          match lastMatch qs u i with
          | some s => SPickle.good s
          | none => p) := by
  intro qs
  induction qs with
  | nil =>
    intro p
    rfl
  | cons q rest ih =>
    intro p
    rw [List.foldl_cons]
    by_cases hc : u = q.1 ∧ i = q.2.sid
    · rw [show upd1 q (u, i, p) = (u, i, SPickle.good q.2) from by
        unfold upd1
        rw [if_pos hc], ih]
      show _ = (u, i, match
          (match lastMatch rest u i with
           | some s => some s
           | none => if u = q.1 ∧ i = q.2.sid then some q.2 else none) with
        | some s => SPickle.good s
        | none => p)
      cases hr : lastMatch rest u i with
      | some s => rfl
      | none =>
        rw [if_pos hc]
    · rw [show upd1 q (u, i, p) = (u, i, p) from by
        unfold upd1
        rw [if_neg hc], ih]
      show _ = (u, i, match
          (match lastMatch rest u i with
           | some s => some s
           | none => if u = q.1 ∧ i = q.2.sid then some q.2 else none) with
        | some s => SPickle.good s
        | none => p)
      cases hr : lastMatch rest u i with
      | some s => rfl
      | none =>
        rw [if_neg hc]

theorem lastMatch_append_some (l1 l2 : List (String × PSession)) (u i : String)
    (s : PSession) (h : lastMatch l2 u i = some s) :
    lastMatch (l1 ++ l2) u i = some s := by
  induction l1 with
  | nil => exact h
  | cons q rest ih =>
    show (match lastMatch (rest ++ l2) u i with
      | some t => some t
      | none => if u = q.1 ∧ i = q.2.sid then some q.2 else none) = some s
    rw [ih]

theorem lastMatch_append_none (l1 l2 : List (String × PSession)) (u i : String)
    (h : lastMatch l2 u i = none) :
    lastMatch (l1 ++ l2) u i = lastMatch l1 u i := by
  induction l1 with
  | nil => exact h
  | cons q rest ih =>
    show (match lastMatch (rest ++ l2) u i with
      | some t => some t
      | none => if u = q.1 ∧ i = q.2.sid then some q.2 else none) =
      (match lastMatch rest u i with
      | some t => some t
      | none => if u = q.1 ∧ i = q.2.sid then some q.2 else none)
    rw [ih]

theorem lastSess_notmem (l : List PSession) (i : String)
    (h : ∀ s ∈ l, s.sid ≠ i) : lastSess l i = none := by
  induction l with
  | nil => rfl
  | cons s rest ih =>
    show (match lastSess rest i with
      | some t => some t
      | none => if i = s.sid then some s else none) = none
    rw [ih (fun t ht => h t (List.mem_cons_of_mem _ ht)),
      if_neg (fun hh => h s (List.mem_cons_self _ _) hh.symm)]

theorem lastSess_mem (l : List PSession) (s : PSession)
    (hnodup : (l.map PSession.sid).Nodup) (hmem : s ∈ l) :
    lastSess l s.sid = some s := by
  induction l with
  | nil => cases hmem
  | cons t rest ih =>
    rw [List.map_cons] at hnodup
    have hn := List.nodup_cons.mp hnodup
    cases hmem with
    | head =>
      show (match lastSess rest s.sid with
        | some t => some t
        | none => if s.sid = s.sid then some s else none) = some s
      rw [lastSess_notmem rest s.sid
        (fun x hx hc => hn.1 (hc ▸ List.mem_map_of_mem PSession.sid hx)),
        if_pos rfl]
    | tail _ hm =>
      show (match lastSess rest s.sid with
        | some x => some x
        | none => if s.sid = t.sid then some t else none) = some s
      rw [ih hn.2 hm]

theorem lastMatch_map_single_eq (l : List PSession) (u0 i : String) :
    lastMatch (l.map (fun s => (u0, s))) u0 i = lastSess l i := by
  induction l with
  | nil => rfl
  | cons s rest ih =>
    show (match lastMatch (rest.map (fun s => (u0, s))) u0 i with
      | some t => some t
      | none => if u0 = u0 ∧ i = s.sid then some s else none) = _
    rw [ih]
    show _ = (match lastSess rest i with
      | some t => some t
      | none => if i = s.sid then some s else none)
    cases hr : lastSess rest i with
    | some t => rfl
    | none =>
      by_cases hi : i = s.sid
      · rw [if_pos ⟨rfl, hi⟩, if_pos hi]
      · rw [if_neg (fun hc => hi hc.2), if_neg hi]

theorem lastMatch_map_single_ne (l : List PSession) (u0 u i : String)
    (h : ¬u = u0) :
    lastMatch (l.map (fun s => (u0, s))) u i = none := by
  induction l with
  | nil => rfl
  | cons s rest ih =>
    show (match lastMatch (rest.map (fun s => (u0, s))) u i with
      | some t => some t
      | none => if u = u0 ∧ i = s.sid then some s else none) = none
    rw [ih, if_neg (fun hc => h hc.1)]

theorem alookup_notmem {α : Type} (l : List (String × α)) (u : String)
    (h : ¬u ∈ l.map Prod.fst) : alookup l u = none := by
  induction l with
  | nil => rfl
  | cons q rest ih =>
    have h1 : ¬q.1 = u := fun hq => h (by
      rw [List.map_cons, ← hq]
      exact List.mem_cons_self _ _)
    have h2 : ¬u ∈ rest.map Prod.fst := fun hm => h (by
      rw [List.map_cons]
      exact List.mem_cons_of_mem _ hm)
    rw [alookup_cons, if_neg h1]
    exact ih h2

theorem lastMatch_flat_none :
    ∀ (sessions : List (String × List PSession)) (u i : String),
      alookup sessions u = none →
      lastMatch (flatPairs sessions) u i = none := by
  intro sessions
  induction sessions with
  | nil =>
    intro u i _
    rfl
  | cons p rest ih =>
    obtain ⟨u0, l0⟩ := p
    intro u i halo
    rw [alookup_cons] at halo
    by_cases hq : u0 = u
    · rw [if_pos hq] at halo
      cases halo
    · rw [if_neg hq] at halo
      rw [show flatPairs ((u0, l0) :: rest) =
          l0.map (fun s => (u0, s)) ++ flatPairs rest from rfl,
        lastMatch_append_none _ _ _ _ (ih u i halo),
        lastMatch_map_single_ne l0 u0 u i (fun hh => hq hh.symm)]

theorem lastMatch_flat_mem :
    ∀ (sessions : List (String × List PSession)) (u i : String) (l : List PSession),
      (sessions.map Prod.fst).Nodup → alookup sessions u = some l →
      lastMatch (flatPairs sessions) u i = lastSess l i := by
  intro sessions
  induction sessions with
  | nil =>
    intro u i l _ halo
    cases halo
  | cons p rest ih =>
    obtain ⟨u0, l0⟩ := p
    intro u i l hkeys halo
    rw [List.map_cons] at hkeys
    have hk := List.nodup_cons.mp hkeys
    rw [alookup_cons] at halo
    by_cases hq : u0 = u
    · rw [if_pos hq] at halo
      injection halo with hl
      have hnone : lastMatch (flatPairs rest) u i = none := by
        apply lastMatch_flat_none
        apply alookup_notmem
        rw [← hq]
        exact hk.1
      rw [show flatPairs ((u0, l0) :: rest) =
          l0.map (fun s => (u0, s)) ++ flatPairs rest from rfl,
        lastMatch_append_none _ _ _ _ hnone, ← hq,
        lastMatch_map_single_eq l0 u0 i, show l0 = l from hl]
    · rw [if_neg hq] at halo
      have hrest := ih u i l hk.2 halo
      rw [show flatPairs ((u0, l0) :: rest) =
          l0.map (fun s => (u0, s)) ++ flatPairs rest from rfl]
      cases hls : lastSess l i with
      | some s =>
        exact lastMatch_append_some _ _ _ _ s (by rw [hrest, hls])
      | none =>
        rw [lastMatch_append_none _ _ _ _ (by rw [hrest, hls]),
          lastMatch_map_single_ne l0 u0 u i (fun hh => hq hh.symm)]

theorem lastMatch_flat_getD (sessions : List (String × List PSession))
    (u : String) (s : PSession)
    (hkeys : (sessions.map Prod.fst).Nodup)
    (hnodup : ((getD sessions u).map PSession.sid).Nodup)
    (hmem : s ∈ getD sessions u) :
    lastMatch (flatPairs sessions) u s.sid = some s := by
  cases halo : alookup sessions u with
  | none =>
    have hg : getD sessions u = [] := by
      unfold getD
      rw [halo]
      rfl
    rw [hg] at hmem
    cases hmem
  | some l =>
    have hg : getD sessions u = l := by
      unfold getD
      rw [halo]
      rfl
    rw [hg] at hnodup hmem
    rw [lastMatch_flat_mem sessions u s.sid l hkeys halo]
    exact lastSess_mem l s hnodup hmem

theorem extractGood_cons_ne (u0 i : String) (q : SPickle)
    (tl : List (String × String × SPickle)) (u : String) (hu : ¬u0 = u) :
    extractGood ((u0, i, q) :: tl) u = extractGood tl u := by
  cases q with
  | good s =>
    show (if u0 = u then s :: extractGood tl u else extractGood tl u) = _
    rw [if_neg hu]
  | corrupt => rfl

theorem extractGood_cons_good (u i : String) (s : PSession)
    (tl : List (String × String × SPickle)) :
    extractGood ((u, i, SPickle.good s) :: tl) u = s :: extractGood tl u := by
  show (if u = u then s :: extractGood tl u else extractGood tl u) = _
  rw [if_pos rfl]

theorem sessRowsFor_cons_eq (u0 i : String) (p : SPickle)
    (tl : List (String × String × SPickle)) (u : String) (hu : u0 = u) :
    sessRowsFor ((u0, i, p) :: tl) u = (i, p) :: sessRowsFor tl u := by
  show (if u0 = u then (i, p) :: sessRowsFor tl u else sessRowsFor tl u) = _
  rw [if_pos hu]

theorem sessRowsFor_cons_ne (u0 i : String) (p : SPickle)
    (tl : List (String × String × SPickle)) (u : String) (hu : ¬u0 = u) :
    sessRowsFor ((u0, i, p) :: tl) u = sessRowsFor tl u := by
  show (if u0 = u then (i, p) :: sessRowsFor tl u else sessRowsFor tl u) = _
  rw [if_neg hu]

theorem mem_sessRowsFor :
    ∀ (rows : List (String × String × SPickle)) (u0 i : String) (p : SPickle),
      (u0, i, p) ∈ rows → i ∈ (sessRowsFor rows u0).map Prod.fst := by
  intro rows
  induction rows with
  | nil =>
    intro u0 i p h
    cases h
  | cons r rest ih =>
    intro u0 i p h
    obtain ⟨u1, i1, p1⟩ := r
    cases h with
    | head =>
      rw [sessRowsFor_cons_eq u0 i p rest u0 rfl, List.map_cons]
      exact List.mem_cons_self _ _
    | tail _ hm =>
      by_cases hr : u1 = u0
      · rw [sessRowsFor_cons_eq u1 i1 p1 rest u0 hr, List.map_cons]
        exact List.mem_cons_of_mem _ (ih u0 i p hm)
      · rw [sessRowsFor_cons_ne u1 i1 p1 rest u0 hr]
        exact ih u0 i p hm

theorem extractGood_map_upd :
    ∀ (rows : List (String × String × SPickle)) (u : String) (l : List PSession)
      (flat : List (String × PSession)),
      (sessRowsFor rows u).map Prod.fst = l.map PSession.sid →
      (∀ s ∈ l, lastMatch flat u s.sid = some s) →
      extractGood (rows.map (fun r => flat.foldl (fun r q => upd1 q r) r)) u = l := by
  intro rows
  induction rows with
  | nil =>
    intro u l flat h1 h2
    have hl : l = [] := by
      cases l with
      | nil => rfl
      | cons s tl => cases h1
    rw [hl]
    rfl
  | cons r rest ih =>
    obtain ⟨u0, i, p⟩ := r
    intro u l flat h1 h2
    by_cases hu : u0 = u
    · rw [sessRowsFor_cons_eq u0 i p rest u hu, List.map_cons] at h1
      cases l with
      | nil => cases h1
      | cons s0 l' =>
        rw [List.map_cons] at h1
        injection h1 with hsid h1'
        have hlm : lastMatch flat u s0.sid = some s0 :=
          h2 s0 (List.mem_cons_self _ _)
        have hsid' : i = s0.sid := hsid
        have hrow : flat.foldl (fun r q => upd1 q r) (u0, i, p) =
            (u0, i, SPickle.good s0) := by
          rw [foldl_upd1_row u0 i flat p, hu, hsid', hlm]
        rw [List.map_cons, hrow, hu, extractGood_cons_good u i s0]
        rw [ih u l' flat h1' (fun s hs => h2 s (List.mem_cons_of_mem _ hs))]
    · rw [sessRowsFor_cons_ne u0 i p rest u hu] at h1
      rw [List.map_cons]
      have hrowfst : (flat.foldl (fun r q => upd1 q r) (u0, i, p)) =
          (u0, i, match lastMatch flat u0 i with
                  | some s => SPickle.good s
                  | none => p) := foldl_upd1_row u0 i flat p
      rw [hrowfst, extractGood_cons_ne u0 i _ _ u hu]
      exact ih u l flat h1 h2

theorem loadSessionsAux_ok_getD :
    ∀ (rows : List (String × String × SPickle)) (acc reg : List (String × List PSession)),
      loadSessionsAux rows acc = .ok reg →
      ∀ u, getD reg u = getD acc u ++ extractGood rows u := by
  intro rows
  induction rows with
  | nil =>
    intro acc reg h u
    injection h with h
    rw [← h]
    show getD acc u = getD acc u ++ []
    rw [List.append_nil]
  | cons r rest ih =>
    obtain ⟨u0, i, p⟩ := r
    intro acc reg h u
    cases p with
    | corrupt => exact Except.noConfusion h
    | good s =>
      have hstep := ih (ddAppend acc u0 s) reg h u
      rw [hstep, getD_ddAppend]
      by_cases hu : u = u0
      · rw [if_pos hu, hu, extractGood_cons_good u0 i s rest, List.append_assoc]
        rfl
      · rw [if_neg hu, extractGood_cons_ne u0 i _ rest u (fun hh => hu hh.symm)]

theorem loadSessionsAux_allgood_ok :
    ∀ (rows : List (String × String × SPickle)) (acc : List (String × List PSession)),
      (∀ row ∈ rows, ∃ s, row.2.2 = SPickle.good s) →
      ∃ reg, loadSessionsAux rows acc = .ok reg := by
  intro rows
  induction rows with
  | nil =>
    intro acc _
    exact ⟨acc, rfl⟩
  | cons r rest ih =>
    obtain ⟨u0, i, p⟩ := r
    intro acc h
    obtain ⟨s, hs⟩ := h (u0, i, p) (List.mem_cons_self _ _)
    have hp : p = SPickle.good s := hs
    subst hp
    exact ih (ddAppend acc u0 s) (fun row hrow => h row (List.mem_cons_of_mem _ hrow))

theorem saved_rows_allgood (st : OlmState)
    (Wkeys : (st.sessions.map Prod.fst).Nodup)
    (Wnodup : ∀ u, ((getD st.sessions u).map PSession.sid).Nodup)
    (Wrows : ∀ u, (sessRowsFor st.database.olmsessions u).map Prod.fst =
      (getD st.sessions u).map PSession.sid) :
    ∀ row ∈ st.database.olmsessions.map
        (fun r => (flatPairs st.sessions).foldl (fun r q => upd1 q r) r),
      ∃ s, row.2.2 = SPickle.good s := by
  intro row hrow
  obtain ⟨r0, hr0, hmap⟩ := List.mem_map.mp hrow
  obtain ⟨u0, i, p⟩ := r0
  have hi : i ∈ (sessRowsFor st.database.olmsessions u0).map Prod.fst :=
    mem_sessRowsFor st.database.olmsessions u0 i p hr0
  rw [Wrows u0] at hi
  obtain ⟨s, hs, hsid⟩ := List.mem_map.mp hi
  have hlm : lastMatch (flatPairs st.sessions) u0 i = some s := by
    rw [← hsid]
    exact lastMatch_flat_getD st.sessions u0 s Wkeys (Wnodup u0) hs
  refine ⟨s, ?_⟩
  rw [← hmap, foldl_upd1_row u0 i _ p, hlm]

/-- The winning (last) good row of `inbound_group_sessions` for
`(room, derived id)`, as the reload loop sees it. -/
def glastGood : List (String × String × GPickle) → String → String → Option GSession
  | [], _, _ => none
  | (r0, _, p) :: rest, r, i =>
    match glastGood rest r i with
    | some g => some g
    | none =>
      match p with
      | .good g => if r = r0 ∧ i = g.gid then some g else none
      | .corrupt => none

/-- The session-id column of the group rows of one room, in row order. -/
def gsidsFor : List (String × String × GPickle) → String → List String
  | [], _ => []
  | row :: rest, r =>
    if row.1 = r then row.2.1 :: gsidsFor rest r else gsidsFor rest r

theorem loadGroupAux_ok_none :
    ∀ (rows : List (String × String × GPickle))
      (acc reg : List (String × List (String × GSession))),
      loadGroupAux rows acc = .ok reg →
      ∀ r i, glastGood rows r i = none → glookup reg r i = glookup acc r i := by
  intro rows
  induction rows with
  | nil =>
    intro acc reg h r i _
    injection h with h
    rw [h]
  | cons row rest ih =>
    obtain ⟨r0, sid0, p⟩ := row
    intro acc reg h r i hg
    cases p with
    | corrupt => exact Except.noConfusion h
    | good g0 =>
      revert hg
      show (match glastGood rest r i with
        | some g => some g
        | none => if r = r0 ∧ i = g0.gid then some g0 else none) = none → _
      cases hr : glastGood rest r i with
      | some g' =>
        intro hg
        cases hg
      | none =>
        intro hg
        by_cases hc : r = r0 ∧ i = g0.gid
        · rw [if_pos hc] at hg
          cases hg
        · have := ih (dd2Set acc r0 g0.gid g0) reg h r i hr
          rw [this, glookup_dd2Set, if_neg hc]

theorem loadGroupAux_ok_some :
    ∀ (rows : List (String × String × GPickle))
      (acc reg : List (String × List (String × GSession))),
      loadGroupAux rows acc = .ok reg →
      ∀ r i g, glastGood rows r i = some g → glookup reg r i = some g := by
  intro rows
  induction rows with
  | nil =>
    intro acc reg h r i g hg
    cases hg
  | cons row rest ih =>
    obtain ⟨r0, sid0, p⟩ := row
    intro acc reg h r i g hg
    cases p with
    | corrupt => exact Except.noConfusion h
    | good g0 =>
      revert hg
      show (match glastGood rest r i with
        | some g => some g
        | none => if r = r0 ∧ i = g0.gid then some g0 else none) = some g → _
      cases hr : glastGood rest r i with
      | some g' =>
        intro hg
        injection hg with hg
        rw [← hg]
        exact ih (dd2Set acc r0 g0.gid g0) reg h r i g' hr
      | none =>
        intro hg
        by_cases hc : r = r0 ∧ i = g0.gid
        · rw [if_pos hc] at hg
          injection hg with hg
          have hnone := loadGroupAux_ok_none rest (dd2Set acc r0 g0.gid g0) reg h r i hr
          rw [hnone, glookup_dd2Set, if_pos hc, hg]
        · rw [if_neg hc] at hg
          cases hg

theorem loadGroupAux_allgood_ok :
    ∀ (rows : List (String × String × GPickle))
      (acc : List (String × List (String × GSession))),
      (∀ row ∈ rows, ∃ g, row.2.2 = GPickle.good g) →
      ∃ reg, loadGroupAux rows acc = .ok reg := by
  intro rows
  induction rows with
  | nil =>
    intro acc _
    exact ⟨acc, rfl⟩
  | cons row rest ih =>
    obtain ⟨r0, sid0, p⟩ := row
    intro acc h
    obtain ⟨g, hg⟩ := h (r0, sid0, p) (List.mem_cons_self _ _)
    have hp : p = GPickle.good g := hg
    subst hp
    exact ih (dd2Set acc r0 g.gid g) (fun row hrow => h row (List.mem_cons_of_mem _ hrow))

theorem glastGood_isSome_iff :
    ∀ (rows : List (String × String × GPickle)) (r i : String),
      (∀ row ∈ rows, ∃ g, row.2.2 = GPickle.good g ∧ g.gid = row.2.1) →
      ((glastGood rows r i).isSome = true ↔ i ∈ gsidsFor rows r) := by
  intro rows
  induction rows with
  | nil =>
    intro r i _
    show (Option.isSome none = true ↔ i ∈ ([] : List String))
    simp
  | cons row rest ih =>
    obtain ⟨r0, sid0, p⟩ := row
    intro r i hW
    obtain ⟨g0, hp, hgid⟩ := hW (r0, sid0, p) (List.mem_cons_self _ _)
    have hp' : p = GPickle.good g0 := hp
    subst hp'
    have hgid' : g0.gid = sid0 := hgid
    have ihr := ih r i (fun row hrow => hW row (List.mem_cons_of_mem _ hrow))
    show ((match glastGood rest r i with
      | some g => some g
      | none => if r = r0 ∧ i = g0.gid then some g0 else none).isSome = true ↔
      i ∈ (if r0 = r then sid0 :: gsidsFor rest r else gsidsFor rest r))
    cases hr : glastGood rest r i with
    | some g' =>
      have hmem : i ∈ gsidsFor rest r := ihr.mp (by rw [hr]; rfl)
      constructor
      · intro _
        by_cases hc : r0 = r
        · rw [if_pos hc]
          exact List.mem_cons_of_mem _ hmem
        · rw [if_neg hc]
          exact hmem
      · intro _
        rfl
    | none =>
      have hnmem : ¬i ∈ gsidsFor rest r := fun hm => by
        have := ihr.mpr hm
        rw [hr] at this
        cases this
      by_cases hc : r = r0 ∧ i = g0.gid
      · rw [if_pos hc]
        constructor
        · intro _
          rw [if_pos hc.1.symm]
          rw [hc.2, hgid']
          exact List.mem_cons_self _ _
        · intro _
          rfl
      · rw [if_neg hc]
        constructor
        · intro hfalse
          cases hfalse
        · intro hmem
          by_cases hcr : r0 = r
          · rw [if_pos hcr] at hmem
            cases hmem with
            | head =>
              exact absurd ⟨hcr.symm, by rw [hgid']⟩ hc
            | tail _ hm => exact absurd hm hnmem
          · rw [if_neg hcr] at hmem
            exact absurd hmem hnmem

theorem glastGood_gkey :
    ∀ (rows : List (String × String × GPickle)) (r i : String) (g : GSession),
      glastGood rows r i = some g → g.gkey = i := by
  intro rows
  induction rows with
  | nil =>
    intro r i g h
    cases h
  | cons row rest ih =>
    obtain ⟨r0, sid0, p⟩ := row
    intro r i g h
    revert h
    cases p with
    | corrupt =>
      show (match glastGood rest r i with
        | some g => some g
        | none => none) = some g → _
      cases hr : glastGood rest r i with
      | some g' =>
        intro h
        injection h with h
        rw [← h]
        exact ih r i g' hr
      | none =>
        intro h
        cases h
    | good g0 =>
      show (match glastGood rest r i with
        | some g => some g
        | none => if r = r0 ∧ i = g0.gid then some g0 else none) = some g → _
      cases hr : glastGood rest r i with
      | some g' =>
        intro h
        injection h with h
        rw [← h]
        exact ih r i g' hr
      | none =>
        intro h
        by_cases hc : r = r0 ∧ i = g0.gid
        · rw [if_pos hc] at h
          injection h with h
          rw [← h]
          exact hc.2.symm
        · rw [if_neg hc] at h
          cases h

theorem alookup_isSome_iff_mem {α : Type} :
    ∀ (l : List (String × α)) (i : String),
      ((alookup l i).isSome = true ↔ i ∈ l.map Prod.fst) := by
  intro l
  induction l with
  | nil =>
    intro i
    show (Option.isSome none = true ↔ i ∈ ([] : List String))
    simp
  | cons q rest ih =>
    intro i
    rw [alookup_cons, List.map_cons]
    by_cases hq : q.1 = i
    · rw [if_pos hq, hq]
      simp
    · rw [if_neg hq]
      constructor
      · intro h
        exact List.mem_cons_of_mem _ ((ih i).mp h)
      · intro h
        cases h with
        | head => exact absurd rfl hq
        | tail _ hm => exact (ih i).mpr hm

theorem firstAcc_updAccRows :
    ∀ (rows : List (String × APickle)) (u : String) (a : Account),
      (firstAcc rows u).isSome = true →
      firstAcc (updAccRows rows u a) u = some (APickle.good a) := by
  intro rows
  induction rows with
  | nil =>
    intro u a h
    cases h
  | cons r rest ih =>
    intro u a h
    by_cases hr : r.1 = u
    · show firstAcc ((if r.1 = u then (r.1, APickle.good a) else r) :: updAccRows rest u a) u =
        some (APickle.good a)
      rw [if_pos hr]
      show (if r.1 = u then some (APickle.good a) else firstAcc (updAccRows rest u a) u) =
        some (APickle.good a)
      rw [if_pos hr]
    · have h' : (firstAcc rest u).isSome = true := by
        revert h
        show (if r.1 = u then some r.2 else firstAcc rest u).isSome = true → _
        rw [if_neg hr]
        exact id
      show firstAcc ((if r.1 = u then (r.1, APickle.good a) else r) :: updAccRows rest u a) u =
        some (APickle.good a)
      rw [if_neg hr]
      show (if r.1 = u then some r.2 else firstAcc (updAccRows rest u a) u) =
        some (APickle.good a)
      rw [if_neg hr]
      exact ih u a h'

def c7Base : OlmState :=
  { enabled := true, user := "u", device_id := "dev", account := cA,
    sessions := [], inbound_group_sessions := [],
    database :=
      { olmaccount := [("u", APickle.good cA)], olmsessions := [],
        inbound_group_sessions := [] } }

def c7b : OlmState :=
  (Olm.group_decrypt (Olm.create_group_session c7Base "room" "gk" "gk")
    "room" "gk" { key := "gk", body := "x" }).2

/-- C7 counterexample: provision a group session, decrypt once (the
in-memory ratchet advances to 1), save the full state and reload it — the
reloaded group session is back at the provisioning-time ratchet 0, because
`to_session_dir` never rewrites the `inbound_group_sessions` table, so the
reloaded registry is NOT observably equivalent to the pre-save state with
respect to group-session ratchet advances. -/
theorem save_load_roundtrip_counterexample :
    glookup c7b.inbound_group_sessions "room" "gk" =
      some { gkey := "gk", ratchet := 1 } ∧
    (Olm.from_session_dir true "u" "dev" (Olm.to_session_dir c7b).database).map
      (Except.map (fun st => glookup st.inbound_group_sessions "room" "gk")) =
      some (.ok (some { gkey := "gk", ratchet := 0 })) ∧
    ({ gkey := "gk", ratchet := 1 } : GSession) ≠ { gkey := "gk", ratchet := 0 } := by
  decide

/-- C7 (amended): for every well-formed manager state — the account has its
row, the registry's sender keys and per-sender session ids are duplicate
free, the `olmsessions` rows carry exactly the registry's session ids per
sender, and the group rows/registry carry matching derived ids — saving the
full state (`to_session_dir`) and reloading it (`from_session_dir`) yields a
registry with the same account, the same senders with the same pairwise
sessions in the same order and with their latest (post-decrypt) states, and
the same group-session identities per room; group-session ratchet advances
made since the rows were inserted are NOT restored (only identities are
preserved for group sessions, as the counterexample forces). -/
theorem save_load_roundtrip (st : OlmState)
    (hen : st.enabled = true)
    (Wacc : (firstAcc st.database.olmaccount st.user).isSome = true)
    (Wkeys : (st.sessions.map Prod.fst).Nodup)
    (Wnodup : ∀ u, ((getD st.sessions u).map PSession.sid).Nodup)
    (Wrows : ∀ u, (sessRowsFor st.database.olmsessions u).map Prod.fst =
      (getD st.sessions u).map PSession.sid)
    (Wg1 : ∀ r, gsidsFor st.database.inbound_group_sessions r =
      (getD st.inbound_group_sessions r).map Prod.fst)
    (Wg2 : ∀ row ∈ st.database.inbound_group_sessions,
      ∃ g, row.2.2 = GPickle.good g ∧ g.gid = row.2.1)
    (Wg3 : ∀ r i s, glookup st.inbound_group_sessions r i = some s → s.gkey = i) :
    ∃ st', Olm.from_session_dir true st.user st.device_id
        (Olm.to_session_dir st).database = some (.ok st') ∧
      st'.account = st.account ∧
      (∀ u, getD st'.sessions u = getD st.sessions u) ∧
      (∀ r i, (glookup st'.inbound_group_sessions r i).isSome =
          (glookup st.inbound_group_sessions r i).isSome ∧
        (glookup st'.inbound_group_sessions r i).map GSession.gkey =
          (glookup st.inbound_group_sessions r i).map GSession.gkey) := by
  have hfold :
      st.sessions.foldl
        (fun rows p => p.2.foldl (fun rows s => updSessRows rows p.1 s.sid s) rows)
        st.database.olmsessions =
      st.database.olmsessions.map
        (fun r => (flatPairs st.sessions).foldl (fun r q => upd1 q r) r) := by
    rw [foldl_sessions_eq_flat, foldl_updSessRows_map]
  have hsave : (Olm.to_session_dir st).database =
      { olmaccount := updAccRows st.database.olmaccount st.user st.account,
        olmsessions := st.database.olmsessions.map
          (fun r => (flatPairs st.sessions).foldl (fun r q => upd1 q r) r),
        inbound_group_sessions := st.database.inbound_group_sessions } := by
    unfold Olm.to_session_dir
    rw [if_pos hen]
    unfold Olm._update_sessions_in_db Olm._update_acc_in_db
    show ({ olmaccount := updAccRows st.database.olmaccount st.user st.account,
            olmsessions := st.sessions.foldl
              (fun rows p => p.2.foldl (fun rows s => updSessRows rows p.1 s.sid s) rows)
              st.database.olmsessions,
            inbound_group_sessions := st.database.inbound_group_sessions } : Database) = _
    rw [hfold]
  have hacc : firstAcc (Olm.to_session_dir st).database.olmaccount st.user =
      some (APickle.good st.account) := by
    rw [hsave]
    exact firstAcc_updAccRows st.database.olmaccount st.user st.account Wacc
  obtain ⟨reg, hreg⟩ := loadSessionsAux_allgood_ok
    (st.database.olmsessions.map
      (fun r => (flatPairs st.sessions).foldl (fun r q => upd1 q r) r)) []
    (saved_rows_allgood st Wkeys Wnodup Wrows)
  obtain ⟨greg, hgreg⟩ := loadGroupAux_allgood_ok st.database.inbound_group_sessions []
    (fun row hrow => (Wg2 row hrow).imp (fun g hg => hg.1))
  have hcore : loadCore (Olm.to_session_dir st).database (APickle.good st.account) =
      .ok (st.account, reg, greg) := by
    unfold loadCore
    rw [show APickle.from_pickle (APickle.good st.account) = .ok st.account from rfl]
    show loadSessionsAux (Olm.to_session_dir st).database.olmsessions [] >>= _ = _
    rw [show (Olm.to_session_dir st).database.olmsessions =
        st.database.olmsessions.map
          (fun r => (flatPairs st.sessions).foldl (fun r q => upd1 q r) r) from by
      rw [hsave], hreg]
    show loadGroupAux (Olm.to_session_dir st).database.inbound_group_sessions [] >>= _ = _
    rw [show (Olm.to_session_dir st).database.inbound_group_sessions =
        st.database.inbound_group_sessions from by rw [hsave], hgreg]
    rfl
  have hres : Olm.from_session_dir true st.user st.device_id
      (Olm.to_session_dir st).database =
      some (.ok
        { enabled := true, user := st.user, device_id := st.device_id,
          account := st.account, sessions := reg, inbound_group_sessions := greg,
          database := (Olm.to_session_dir st).database }) := by
    unfold Olm.from_session_dir
    rw [if_pos rfl, hacc]
    simp only [hcore]
  refine ⟨_, hres, rfl, ?_, ?_⟩
  · intro u
    show getD reg u = getD st.sessions u
    have h1 := loadSessionsAux_ok_getD
      (st.database.olmsessions.map
        (fun r => (flatPairs st.sessions).foldl (fun r q => upd1 q r) r)) [] reg hreg u
    rw [h1]
    show [] ++ _ = _
    rw [List.nil_append]
    exact extractGood_map_upd st.database.olmsessions u (getD st.sessions u)
      (flatPairs st.sessions) (Wrows u)
      (fun s hs => lastMatch_flat_getD st.sessions u s Wkeys (Wnodup u) hs)
  · intro r i
    show (glookup greg r i).isSome = _ ∧ (glookup greg r i).map GSession.gkey = _
    cases hgl : glastGood st.database.inbound_group_sessions r i with
    | some g =>
      have h1 := loadGroupAux_ok_some st.database.inbound_group_sessions [] greg
        hgreg r i g hgl
      have hmem : i ∈ gsidsFor st.database.inbound_group_sessions r :=
        (glastGood_isSome_iff _ r i Wg2).mp (by rw [hgl]; rfl)
      rw [Wg1 r] at hmem
      have hsome : (alookup (getD st.inbound_group_sessions r) i).isSome = true :=
        (alookup_isSome_iff_mem _ i).mpr hmem
      cases hrg : glookup st.inbound_group_sessions r i with
      | none =>
        rw [show glookup st.inbound_group_sessions r i =
            alookup (getD st.inbound_group_sessions r) i from rfl] at hrg
        rw [hrg] at hsome
        cases hsome
      | some s =>
        constructor
        · rw [h1]
          rfl
        · rw [h1]
          show some g.gkey = some s.gkey
          rw [glastGood_gkey st.database.inbound_group_sessions r i g hgl,
            Wg3 r i s hrg]
    | none =>
      have h1 := loadGroupAux_ok_none st.database.inbound_group_sessions [] greg
        hgreg r i hgl
      have hnmem : ¬i ∈ gsidsFor st.database.inbound_group_sessions r := fun hm => by
        have hcontra := (glastGood_isSome_iff _ r i Wg2).mpr hm
        rw [hgl] at hcontra
        cases hcontra
      rw [Wg1 r] at hnmem
      have halo : alookup (getD st.inbound_group_sessions r) i = none := by
        cases ha : alookup (getD st.inbound_group_sessions r) i with
        | none => rfl
        | some s =>
          exact absurd ((alookup_isSome_iff_mem _ i).mp (by rw [ha]; rfl)) hnmem
      have hrg : glookup st.inbound_group_sessions r i = none := halo
      rw [h1, hrg]
      exact ⟨rfl, rfl⟩

/-- C7 (amended) witness: a fresh well-formed manager state. -/
theorem save_load_roundtrip_witness :
    ∃ st', Olm.from_session_dir true c7Base.user c7Base.device_id
        (Olm.to_session_dir c7Base).database = some (.ok st') ∧
      st'.account = c7Base.account ∧
      (∀ u, getD st'.sessions u = getD c7Base.sessions u) ∧
      (∀ r i, (glookup st'.inbound_group_sessions r i).isSome =
          (glookup c7Base.inbound_group_sessions r i).isSome ∧
        (glookup st'.inbound_group_sessions r i).map GSession.gkey =
          (glookup c7Base.inbound_group_sessions r i).map GSession.gkey) :=
  save_load_roundtrip c7Base (by decide) (by decide) (by decide)
    (fun _ => List.nodup_nil) (fun _ => rfl) (fun _ => rfl)
    (fun row hrow => by cases hrow) (fun r i s h => Option.noConfusion h)

end WeechatMatrix
